import Mathlib

/-!
# Rate-limit admission control of `getter`

A shallow embedding of `ratelimit.go` and `ratelimits.go`.

* Go strings are Lean strings, read as character sequences (on UTF-8 text a run of
  characters occurs in a string exactly when its bytes do).
* `int64` and `time.Duration` values are integers; the one product that can leave
  the 64-bit range (`4*bucket`) is wrapped explicitly.
* `time.Now()` is an explicit argument: the Unix time in seconds at which a call runs.
* The library functions `url.ParseRequestURI` and `time.ParseDuration` are arguments
  of the functions that call them.
* The shared cache is an interface record over an explicit state; every evaluation
  also reports the cache operations it issued.
* A Go run-time panic is a result of its own.
-/

namespace Getter

/-! ## Errors -/

/-- Go `error` values: `getter` is `&Error{ErrorString}` of this package, `foreign` is an
error produced by a library (`net/url`, `time`, the cache client). -/
inductive Error where
  | getter (ErrorString : String)
  | foreign (msg : String)
deriving DecidableEq, Repr

/-- Equality of Go results `(value, err)` is decidable. -/
instance instDecidableEqExcept {ε α : Type} [DecidableEq ε] [DecidableEq α] :
    DecidableEq (Except ε α) := fun a b =>
  match a, b with
  | .ok x, .ok y =>
    if h : x = y then isTrue (congrArg Except.ok h)
    else isFalse (fun e => h (Except.ok.inj e))
  | .error x, .error y =>
    if h : x = y then isTrue (congrArg Except.error h)
    else isFalse (fun e => h (Except.error.inj e))
  | .ok _, .error _ => isFalse (fun e => Except.noConfusion e)
  | .error _, .ok _ => isFalse (fun e => Except.noConfusion e)

/-- The sentinel `ErrRateLimited` of `getter.go`. -/
def ErrRateLimited : Error := .getter "rate limited"

/-- The sentinel `ErrRateLimitingDown` of `getter.go`. -/
def ErrRateLimitingDown : Error := .getter "rate limiting is down"

/-- The sentinel `ErrRateLimitingInvalid` of `getter.go`. -/
def ErrRateLimitingInvalid : Error := .getter "invalid internal data in rate limiting"

/-! ## Library functions used by the source -/

/-- The 64-bit two's-complement value of an integer (Go `int64` arithmetic wraps). -/
def wrapInt64 (x : Int) : Int := (x + 2 ^ 63) % 2 ^ 64 - 2 ^ 63

/-- The constant `time.Second`, in nanoseconds. -/
def Second : Int := 1000000000

/-- Worker of `strings.Contains`: is `substr` at the head of some tail of `s`. -/
def stringsContainsAux : List Char → List Char → Bool
  | [], substr => substr.isEmpty
  | c :: cs, substr => substr.isPrefixOf (c :: cs) || stringsContainsAux cs substr

/-- Go `strings.Contains s substr`. -/
def stringsContains (s substr : String) : Bool :=
  stringsContainsAux s.data substr.data

/-- Decimal rendering of a natural number, most significant digit first. -/
def formatNat (n : Nat) : List Char :=
  if n = 0 then ['0'] else ((Nat.digits 10 n).map Nat.digitChar).reverse

/-- The verb `%d` of `fmt.Sprintf` at an `int64`. -/
def formatInt (i : Int) : String :=
  if i < 0 then String.mk ('-' :: formatNat i.natAbs) else String.mk (formatNat i.natAbs)

/-- Value of a decimal digit character. -/
def digitVal (c : Char) : Option Nat :=
  if 48 ≤ c.toNat ∧ c.toNat ≤ 57 then some (c.toNat - 48) else none

/-- Digit loop of `strconv.ParseUint` in base 10 (`none`: a character is not a digit). -/
def parseUintAux : List Char → Nat → Option Nat
  | [], acc => some acc
  | c :: cs, acc =>
    match digitVal c with
    | none => none
    | some d => parseUintAux cs (acc * 10 + d)

/-- Base-10 `strconv.ParseUint` without its range check (`none`: syntax error). -/
def ParseUint (s : List Char) : Option Nat :=
  if s = [] then none else parseUintAux s 0

/-- Go `strconv.ParseInt(s, 10, 64)`; `none` stands for any non-nil error
(syntax error or value out of the `int64` range). -/
def ParseInt (s : String) : Option Int :=
  match s.data with
  | [] => none
  | '+' :: rest =>
    match ParseUint rest with
    | none => none
    | some un => if un < 2 ^ 63 then some (un : Int) else none
  | '-' :: rest =>
    match ParseUint rest with
    | none => none
    | some un => if un ≤ 2 ^ 63 then some (-(un : Int)) else none
  | c :: rest =>
    match ParseUint (c :: rest) with
    | none => none
    | some un => if un < 2 ^ 63 then some (un : Int) else none

/-- The part of `url.URL` the source reads. -/
structure URL where
  Host : String
deriving DecidableEq, Repr

/-! ## `ratelimit.go` -/

/-- The variable `keyRateLimit` of `ratelimits.go`. -/
def keyRateLimit : String := "rate"

/-- The variable `separator` of `ratelimits.go`. -/
def separator : String := "."

/-- The struct `RateLimit`: host pattern, window (a `time.Duration`, nanoseconds),
and admitted count per window. -/
structure RateLimit where
  host : String
  bucket : Int
  count : Int
deriving DecidableEq, Repr

/-- `RateLimit.getHostFromURL`, over the library function `url.ParseRequestURI`. -/
def RateLimit.getHostFromURL (parseRequestURI : String → Except Error URL)
    (_r : RateLimit) (path : String) : Except Error String :=
  match parseRequestURI path with
  | .error err => .error err
  | .ok u => .ok u.Host

/-- `RateLimit.match`: `.error err` is the Go result `(false, err)`, `.ok b` is `(b, nil)`. -/
def RateLimit.match_ (parseRequestURI : String → Except Error URL)
    (r : RateLimit) (path : String) : Except Error Bool :=
  match r.getHostFromURL parseRequestURI path with
  | .error err => .error err
  | .ok host => .ok (stringsContains host r.host)

/-- `RateLimit.getBucketTimestamp` at Unix time `now` (seconds). Go integer `/` and `%`
truncate towards zero; `%` by zero panics, which is `none`. Adding a whole number of
seconds to the time moves its Unix seconds by that number; the duration `-gap` seconds
is within `int64`, since `gap` is smaller in size than `bucket / time.Second`. -/
def RateLimit.getBucketTimestamp (r : RateLimit) (now : Int) : Option Int :=
  let divisor := r.bucket.tdiv Second
  if divisor = 0 then none
  else
    let gap := now.tmod divisor
    some (now + (-1 * gap))

/-- `RateLimit.getCacheKey` at Unix time `now`; `none` when the timestamp panics. -/
def RateLimit.getCacheKey (r : RateLimit) (now : Int) : Option String :=
  match r.getBucketTimestamp now with
  | none => none
  | some ts => some (keyRateLimit ++ separator ++ r.host ++ separator ++ formatInt ts)

/-! ## `ratelimits.go` -/

/-- A call on the shared cache, as issued by `isRateLimited`. -/
inductive CacheOp where
  | get (key : String)
  | incr (key : String)
  | expire (key : String) (expiration : Int)
deriving DecidableEq, Repr

/-- The three methods of `rediscache.Cache` that the source calls, over a cache state `σ`.
The first argument is the Unix time at which the call is served; each method returns
its Go result (`.error` for a non-nil error) and the state it leaves. -/
structure Cache (σ : Type) where
  Get : Int → String → σ → Except Error String × σ
  Incr : Int → String → σ → Except Error Int × σ
  Expire : Int → String → Int → σ → Except Error Bool × σ

/-- The struct `RateLimits` (the logger is left out); `cache = none` is the nil handle. -/
structure RateLimits (σ : Type) where
  list : List RateLimit
  cache : Option (Cache σ)

/-- `RateLimits.addRateLimit`, over the library function `time.ParseDuration`:
the returned error (`none` is nil) and the registry after the call. -/
def RateLimits.addRateLimit {σ : Type} (parseDuration : String → Except Error Int)
    (r : RateLimits σ) (host bucket : String) (count : Int) : Option Error × RateLimits σ :=
  if host = "" then (some (.getter "host should not be empty"), r)
  else if bucket = "" then (some (.getter "bucket should not be empty"), r)
  else if count = 0 then (some (.getter "count should not be empty"), r)
  else
    match parseDuration bucket with
    | .error err => (some err, r)
    | .ok bucketTime =>
      let rl : RateLimit := { host := host, bucket := bucketTime, count := count }
      (none, { r with list := r.list ++ [rl] })

/-- What a call of `isRateLimited` does: it returns `(limited, err)` or panics. -/
inductive Return where
  | value (limited : Bool) (err : Option Error)
  | panic (msg : String)
deriving DecidableEq, Repr

/-- The result of one `isRateLimited` call, the cache state it leaves and the cache
operations it issued, in order. -/
structure Outcome (σ : Type) where
  ret : Return
  state : σ
  ops : List CacheOp

/-- The `for ... range r.list` loop of `isRateLimited`: `.error err` when a `match` fails,
`.ok (some limit)` at the first rule that matches, `.ok none` when the list is exhausted. -/
def matchLoop (parseRequestURI : String → Except Error URL) :
    List RateLimit → String → Except Error (Option RateLimit)
  | [], _ => .ok none
  | limit :: rest, path =>
    match limit.match_ parseRequestURI path with
    | .error err => .error err
    | .ok true => .ok (some limit)
    | .ok false => matchLoop parseRequestURI rest path

/-- `RateLimits.isRateLimited` for the destination `path`, run at Unix time `now` on the
cache state `s`. -/
def RateLimits.isRateLimited {σ : Type} (parseRequestURI : String → Except Error URL)
    (r : RateLimits σ) (path : String) (now : Int) (s : σ) : Outcome σ :=
  match matchLoop parseRequestURI r.list path with
  | .error err => ⟨.value true (some err), s, []⟩
  | .ok none => ⟨.value false none, s, []⟩
  | .ok (some matchedRateLimit) =>
    match matchedRateLimit.getCacheKey now with
    | none => ⟨.panic "runtime error: integer divide by zero", s, []⟩
    | some key =>
      match r.cache with
      | none => ⟨.value false none, s, []⟩
      | some cache =>
        match cache.Get now key s with
        | (.error _, s1) => ⟨.value true (some ErrRateLimitingDown), s1, [.get key]⟩
        | (.ok val, s1) =>
          match (if val ≠ "" then ParseInt val else some 0) with
          | none => ⟨.value true (some ErrRateLimitingInvalid), s1, [.get key]⟩
          | some limit =>
            if limit > matchedRateLimit.count then ⟨.value true none, s1, [.get key]⟩
            else
              match cache.Incr now key s1 with
              | (.error _, s2) =>
                ⟨.value true (some ErrRateLimitingDown), s2, [.get key, .incr key]⟩
              | (.ok incrVal, s2) =>
                if incrVal > matchedRateLimit.count then
                  ⟨.value true none, s2, [.get key, .incr key]⟩
                else
                  let expiration := wrapInt64 (4 * matchedRateLimit.bucket)
                  match cache.Expire now key expiration s2 with
                  | (.error _, s3) =>
                    ⟨.value true (some ErrRateLimitingDown), s3,
                      [.get key, .incr key, .expire key expiration]⟩
                  | (.ok _, s3) =>
                    ⟨.value false none, s3, [.get key, .incr key, .expire key expiration]⟩

/-! ## Sequences of calls -/

/-- One `addRateLimit` call: host, window spec, count. -/
structure AddCall where
  host : String
  bucket : String
  count : Int

/-- The registry after a sequence of `addRateLimit` calls, whatever each call returned. -/
def addAll {σ : Type} (parseDuration : String → Except Error Int) :
    RateLimits σ → List AddCall → RateLimits σ
  | r, [] => r
  | r, c :: cs =>
    addAll parseDuration (r.addRateLimit parseDuration c.host c.bucket c.count).2 cs

/-- Sequential `isRateLimited` calls for one destination at the given times: the list of
what each call returned, and the final cache state. -/
def runSame {σ : Type} (parseRequestURI : String → Except Error URL) (r : RateLimits σ)
    (path : String) : List Int → σ → List Return × σ
  | [], s => ([], s)
  | now :: rest, s =>
    let o := r.isRateLimited parseRequestURI path now s
    let tl := runSame parseRequestURI r path rest o.state
    (o.ret :: tl.1, tl.2)

/-- The cache state after sequential `isRateLimited` calls, each with its own destination
and time. A call that panics has issued no cache operation and leaves the state as is. -/
def runCalls {σ : Type} (parseRequestURI : String → Except Error URL) (r : RateLimits σ) :
    List (String × Int) → σ → σ
  | [], s => s
  | (path, now) :: rest, s =>
    runCalls parseRequestURI r rest (r.isRateLimited parseRequestURI path now s).state

/-! ## A reliable shared cache -/

/-- A counter entry of the reference cache: its value and, when one was set, the instant
(nanoseconds since the epoch) at which it expires. -/
structure Entry where
  val : String
  expireAt : Option Int
deriving DecidableEq, Repr

/-- The state of the reference cache: the entry stored under each key. -/
abbrev Store := String → Option Entry

/-- The store with no key. -/
def Store.empty : Store := fun _ => none

/-- The entry that a read at Unix time `now` finds under `key`: an entry whose expiry
instant has been reached is gone. -/
def Store.lookup (s : Store) (now : Int) (key : String) : Option Entry :=
  match s key with
  | none => none
  | some e =>
    match e.expireAt with
    | none => some e
    | some t => if now * Second < t then some e else none

/-- A reliable cache (no call fails in transport), after the Redis commands behind
`rediscache.Cache`: `Get` gives the empty string for a missing key, `Incr` creates a
missing counter at 1 without expiry and otherwise adds 1 keeping the expiry, `Expire`
sets the expiry of a key that is there to the given duration from now. -/
def reliableCache : Cache Store where
  Get := fun now key s =>
    match s.lookup now key with
    | none => (.ok "", s)
    | some e => (.ok e.val, s)
  Incr := fun now key s =>
    match s.lookup now key with
    | none => (.ok 1, Function.update s key (some { val := "1", expireAt := none }))
    | some e =>
      match ParseInt e.val with
      | none => (.error (.foreign "ERR value is not an integer or out of range"), s)
      | some n =>
        if n + 1 < 2 ^ 63 then
          (.ok (n + 1),
            Function.update s key (some { val := formatInt (n + 1), expireAt := e.expireAt }))
        else (.error (.foreign "ERR increment or decrement would overflow"), s)
  Expire := fun now key expiration s =>
    match s.lookup now key with
    | none => (.ok false, s)
    | some e =>
      (.ok true,
        Function.update s key (some { val := e.val, expireAt := some (now * Second + expiration) }))

/-! ## Concrete library instances -/

/-- The text after the first `://` of a URL. -/
def afterScheme : List Char → Option (List Char)
  | [] => none
  | c :: cs =>
    match c, cs with
    | ':', '/' :: '/' :: rest => some rest
    | _, _ => afterScheme cs

/-- A stand-in for `url.ParseRequestURI` on URLs of the plain shape `scheme://host/rest`
(the shape of every URL in `getter_test.go`): the host is the text between `://` and the
next `/` or `?`. It instantiates the library argument at concrete inputs only. -/
def plainParseRequestURI (path : String) : Except Error URL :=
  match afterScheme path.data with
  | none => .error (.foreign "invalid URI for request")
  | some rest => .ok { Host := String.mk (rest.takeWhile (fun c => c != '/' && c != '?')) }

/-- The helper `leadingInt` of package `time`: the digits at the head of `s` as a number,
and the rest; `none` on overflow. -/
def leadingInt : List Char → Nat → Option (Nat × List Char)
  | [], x => some (x, [])
  | c :: cs, x =>
    match digitVal c with
    | none => some (x, c :: cs)
    | some d =>
      if x > 2 ^ 63 / 10 then none
      else if x * 10 + d > 2 ^ 63 then none
      else leadingInt cs (x * 10 + d)

/-- The helper `leadingFraction` of package `time`: the digits at the head of `s` as a
number and its scale (a power of ten), digits past the 64-bit range being dropped. -/
def leadingFraction : List Char → Nat → Nat → Bool → Nat × Nat × List Char
  | [], x, scale, _ => (x, scale, [])
  | c :: cs, x, scale, overflow =>
    match digitVal c with
    | none => (x, scale, c :: cs)
    | some d =>
      if overflow then leadingFraction cs x scale true
      else if x > (2 ^ 63 - 1) / 10 then leadingFraction cs x scale true
      else if x * 10 + d > 2 ^ 63 then leadingFraction cs x scale true
      else leadingFraction cs (x * 10 + d) (scale * 10) false

/-- The table `unitMap` of package `time`, in nanoseconds. -/
def unitMap (u : List Char) : Option Nat :=
  if u = ['n', 's'] then some 1
  else if u = ['u', 's'] then some 1000
  else if u = ['µ', 's'] then some 1000
  else if u = ['μ', 's'] then some 1000
  else if u = ['m', 's'] then some 1000000
  else if u = ['s'] then some 1000000000
  else if u = ['m'] then some 60000000000
  else if u = ['h'] then some 3600000000000
  else none

/-- Whether a character continues a number (`.` or a digit) in a duration. -/
def isNumberChar (c : Char) : Bool := c == '.' || (digitVal c).isSome

/-- The main loop of `time.ParseDuration` over the groups `[0-9]*(\.[0-9]*)?[a-z]+`,
accumulating nanoseconds in `d`; `none` is the error return. The fuel bounds the number
of groups (each consumes a character). The fractional part of a group is taken exactly,
where Go rounds through `float64`. -/
def parseDurationLoop : Nat → List Char → Nat → Option Nat
  | _, [], d => some d
  | 0, _ :: _, _ => none
  | fuel + 1, c :: cs, d =>
    if !isNumberChar c then none
    else
      match leadingInt (c :: cs) 0 with
      | none => none
      | some (v, s1) =>
        let pre := decide (s1.length ≠ (c :: cs).length)
        let frac : Nat × Nat × List Char × Bool :=
          match s1 with
          | '.' :: s1' =>
            let r := leadingFraction s1' 0 1 false
            (r.1, r.2.1, r.2.2, decide (r.2.2.length ≠ s1'.length))
          | _ => (0, 1, s1, false)
        let f := frac.1
        let scale := frac.2.1
        let s2 := frac.2.2.1
        let post := frac.2.2.2
        if !pre && !post then none
        else
          let u := s2.takeWhile (fun x => !isNumberChar x)
          let s3 := s2.dropWhile (fun x => !isNumberChar x)
          if u = [] then none
          else
            match unitMap u with
            | none => none
            | some unit =>
              if v > 2 ^ 63 / unit then none
              else
                let v1 := if f > 0 then v * unit + f * unit / scale else v * unit
                if v1 > 2 ^ 63 then none
                else if d + v1 > 2 ^ 63 then none
                else parseDurationLoop fuel s3 (d + v1)

/-- A model of Go `time.ParseDuration` (nanoseconds): an optional sign, then the special
case `0`, then one or more groups of a decimal number and a unit. -/
def ParseDuration (s : String) : Except Error Int :=
  let invalid : Except Error Int := .error (.foreign "time: invalid duration")
  let neg := decide (s.data.head? = some '-')
  let body :=
    match s.data with
    | '-' :: rest => rest
    | '+' :: rest => rest
    | other => other
  if body = ['0'] then .ok 0
  else if body = [] then invalid
  else
    match parseDurationLoop body.length body 0 with
    | none => invalid
    | some d =>
      if neg then .ok (-(d : Int))
      else if d > 2 ^ 63 - 1 then invalid
      else .ok (d : Int)

/-! ## Notions used to state the properties -/

/-- The key a cache operation is issued on. -/
def CacheOp.key : CacheOp → String
  | .get key => key
  | .incr key => key
  | .expire key _ => key

/-- A decimal integer in the words of the specification: an optional sign followed by
one or more decimal digits. -/
def isDecimalInteger (s : String) : Bool :=
  match s.data with
  | [] => false
  | '+' :: digits => !digits.isEmpty && digits.all Char.isDigit
  | '-' :: digits => !digits.isEmpty && digits.all Char.isDigit
  | c :: digits => c.isDigit && digits.all Char.isDigit

/-- The bucket key of a rule for the window that starts at `B`. -/
def bucketKey (rl : RateLimit) (B : Int) : String :=
  keyRateLimit ++ separator ++ rl.host ++ separator ++ formatInt B

/-- The counter of the window starting at `B` after `n` evaluations in that window on the
reliable cache: absent before the first one, afterwards the count (which stops one above
the rule's count) with an expiry of four windows from some time of that window. -/
def CounterAfter (rl : RateLimit) (B : Int) (s : Store) : Nat → Prop
  | 0 => s (bucketKey rl B) = none
  | n + 1 =>
    ∃ t0, rl.getBucketTimestamp t0 = some B ∧
      s (bucketKey rl B)
        = some { val := formatInt (min ((n : Int) + 1) (rl.count + 1)),
                 expireAt := some (t0 * Second + 4 * rl.bucket) }

/-- Every entry of the store has an expiry. -/
def AllExpire (s : Store) : Prop :=
  ∀ k e, s k = some e → e.expireAt.isSome = true

/-- A cache whose every call fails in transport. -/
def downCache : Cache Unit where
  Get := fun _ _ s => (.error (.foreign "dial tcp: connection refused"), s)
  Incr := fun _ _ s => (.error (.foreign "dial tcp: connection refused"), s)
  Expire := fun _ _ _ s => (.error (.foreign "dial tcp: connection refused"), s)

/-- A cache that answers every `Get` with a value that is no number. -/
def garbageCache : Cache Unit where
  Get := fun _ _ s => (.ok "12abc", s)
  Incr := fun _ _ s => (.ok 1, s)
  Expire := fun _ _ _ s => (.ok true, s)

/-- The rule of `TestRateLimits` for its first URL: two requests a second. -/
def amfiRule : RateLimit := { host := "amfiindia.com", bucket := 1 * Second, count := 2 }

/-- The rule of `TestRateLimits` for its second URL. -/
def nseRule : RateLimit := { host := "nseindia.com", bucket := 1 * Second, count := 10000 }

/-- A window of 2^62 ns plus one second (about 146 years), as a window spec. -/
def longWindowSpec : String := "4611686019427387904ns"

/-- A window of 2^61 ns (about 73 years), as a window spec. -/
def wideWindowSpec : String := "2305843009213693952ns"

/-- A window of -2^62 ns, as a window spec. -/
def negWindowSpec : String := "-4611686018427387904ns"

/-- The first URL of `TestRateLimit`. -/
def url1 : String :=
  "https://portal.amfiindia.com/DownloadNAVHistoryReport_Po.aspx?frmdt=04-Sep-2007"

/-- The second URL of `TestRateLimit`. -/
def url2 : String :=
  "https://www1.nseindia.com/content/historical/EQUITIES/2021/OCT/cm14OCT2021bhav.csv.zip"

/-- The third URL of `TestRateLimit`. -/
def url3 : String :=
  "https://republika.co.id/berita/r5fa6n370/jerman-kembangkan-vaksin-baru-untuk-hadapi-varian-virus-corona"

/-! ## Strings and decimal numerals -/

theorem stringsContainsAux_iff (s substr : List Char) :
    stringsContainsAux s substr = true ↔ substr <:+: s := by
  induction s with
  | nil => simp [stringsContainsAux, List.isEmpty_iff]
  | cons c cs ih =>
    simp only [stringsContainsAux, Bool.or_eq_true, ih, List.infix_cons_iff,
      List.isPrefixOf_iff_prefix]

theorem stringsContains_iff (s substr : String) :
    stringsContains s substr = true ↔ substr.data <:+: s.data :=
  stringsContainsAux_iff s.data substr.data

theorem digitVal_digitChar (d : Nat) (h : d < 10) : digitVal (Nat.digitChar d) = some d := by
  interval_cases d <;> decide

theorem digitChar_ne_dot (d : Nat) (h : d < 10) : Nat.digitChar d ≠ '.' := by
  interval_cases d <;> decide

theorem digitChar_ne_minus (d : Nat) (h : d < 10) : Nat.digitChar d ≠ '-' := by
  interval_cases d <;> decide

theorem digitChar_ne_plus (d : Nat) (h : d < 10) : Nat.digitChar d ≠ '+' := by
  interval_cases d <;> decide

theorem parseUintAux_append (xs ys : List Char) (acc : Nat) :
    parseUintAux (xs ++ ys) acc = (parseUintAux xs acc).bind (parseUintAux ys) := by
  induction xs generalizing acc with
  | nil => simp [parseUintAux]
  | cons c cs ih =>
    simp only [List.cons_append, parseUintAux]
    cases digitVal c with
    | none => simp
    | some d => simp [ih]

theorem parseUintAux_digits (l : List Nat) (hl : ∀ d ∈ l, d < 10) :
    parseUintAux ((l.map Nat.digitChar).reverse) 0 = some (Nat.ofDigits 10 l) := by
  induction l with
  | nil => simp [parseUintAux]
  | cons d ds ih =>
    have hd : d < 10 := hl d (List.mem_cons_self _ _)
    have hds : ∀ x ∈ ds, x < 10 := fun x hx => hl x (List.mem_cons_of_mem _ hx)
    simp only [List.map_cons, List.reverse_cons, parseUintAux_append, ih hds, Option.some_bind,
      parseUintAux, digitVal_digitChar d hd, Nat.ofDigits_cons]
    congr 1
    ring

theorem formatNat_ne_nil (n : Nat) : formatNat n ≠ [] := by
  unfold formatNat
  split
  · simp
  · rename_i h
    simp [Nat.digits_ne_nil_iff_ne_zero, h]

theorem ParseUint_formatNat (n : Nat) : ParseUint (formatNat n) = some n := by
  unfold ParseUint
  rw [if_neg (formatNat_ne_nil n)]
  unfold formatNat
  split
  · rename_i h
    subst h
    decide
  · rw [parseUintAux_digits _ (fun d hd => Nat.digits_lt_base (by norm_num) hd),
      Nat.ofDigits_digits]

theorem formatNat_injective : Function.Injective formatNat := by
  intro a b h
  have := ParseUint_formatNat a
  rw [h, ParseUint_formatNat] at this
  exact (Option.some.inj this).symm

theorem mem_formatNat (n : Nat) (c : Char) (h : c ∈ formatNat n) :
    ∃ d, d < 10 ∧ c = Nat.digitChar d := by
  unfold formatNat at h
  split at h
  · simp at h
    exact ⟨0, by norm_num, by rw [h]; rfl⟩
  · simp only [List.mem_reverse, List.mem_map] at h
    obtain ⟨d, hd, rfl⟩ := h
    exact ⟨d, Nat.digits_lt_base (by norm_num) hd, rfl⟩

theorem dot_not_mem_formatInt (i : Int) : '.' ∉ (formatInt i).data := by
  intro h
  unfold formatInt at h
  split at h
  · simp only [List.mem_cons] at h
    rcases h with h | h
    · exact absurd h (by decide)
    · obtain ⟨d, hd, hc⟩ := mem_formatNat _ _ h
      exact digitChar_ne_dot d hd hc.symm
  · obtain ⟨d, hd, hc⟩ := mem_formatNat _ _ h
    exact digitChar_ne_dot d hd hc.symm

theorem formatInt_of_nonneg (i : Int) (h : 0 ≤ i) :
    formatInt i = String.mk (formatNat i.toNat) := by
  unfold formatInt
  rw [if_neg (by omega)]
  congr 2
  omega

theorem formatInt_inj_of_nonneg (a b : Int) (ha : 0 ≤ a) (hb : 0 ≤ b)
    (h : formatInt a = formatInt b) : a = b := by
  rw [formatInt_of_nonneg a ha, formatInt_of_nonneg b hb] at h
  have := formatNat_injective (congrArg String.data h)
  omega

theorem ParseInt_formatInt (n : Int) (h0 : 0 ≤ n) (h1 : n < 2 ^ 63) :
    ParseInt (formatInt n) = some n := by
  rw [formatInt_of_nonneg n h0]
  have hne := formatNat_ne_nil n.toNat
  have hp := ParseUint_formatNat n.toNat
  have hlt : n.toNat < 2 ^ 63 := by omega
  have hcast : ((n.toNat : Nat) : Int) = n := Int.toNat_of_nonneg h0
  unfold ParseInt
  split
  · rename_i heq
    exact absurd heq hne
  · rename_i rest heq
    simp only at heq
    have hmem : '+' ∈ formatNat n.toNat := by rw [heq]; exact List.mem_cons_self _ _
    obtain ⟨d, hd, hc⟩ := mem_formatNat _ _ hmem
    exact absurd hc.symm (digitChar_ne_plus d hd)
  · rename_i rest heq
    simp only at heq
    have hmem : '-' ∈ formatNat n.toNat := by rw [heq]; exact List.mem_cons_self _ _
    obtain ⟨d, hd, hc⟩ := mem_formatNat _ _ hmem
    exact absurd hc.symm (digitChar_ne_minus d hd)
  · rename_i c rest _ _ heq
    simp only at heq
    rw [← heq, hp]
    have hlt2 : n.toNat < 9223372036854775808 := by omega
    simp [hlt2, hcast]

theorem last_dot_split (h1 h2 d1 d2 : List Char) (hd1 : '.' ∉ d1) (hd2 : '.' ∉ d2)
    (h : h1 ++ '.' :: d1 = h2 ++ '.' :: d2) : h1 = h2 ∧ d1 = d2 := by
  induction h1 generalizing h2 with
  | nil =>
    cases h2 with
    | nil => simpa using h
    | cons x xs =>
      simp only [List.nil_append, List.cons_append, List.cons.injEq] at h
      exact absurd (h.2 ▸ (by simp : '.' ∈ xs ++ '.' :: d2)) hd1
  | cons y ys ih =>
    cases h2 with
    | nil =>
      simp only [List.nil_append, List.cons_append, List.cons.injEq] at h
      exact absurd (h.2 ▸ (by simp : '.' ∈ ys ++ '.' :: d1)) hd2
    | cons x xs =>
      simp only [List.cons_append, List.cons.injEq] at h
      obtain ⟨e1, e2⟩ := ih xs h.2
      exact ⟨by rw [h.1, e1], e2⟩

/-! ## Bucket timestamps and keys -/

theorem key_data (host : String) (ts : Int) :
    (keyRateLimit ++ separator ++ host ++ separator ++ formatInt ts).data
      = ['r', 'a', 't', 'e', '.'] ++ host.data ++ '.' :: (formatInt ts).data := by
  simp [keyRateLimit, separator, String.data_append]

theorem key_eq_iff (h1 h2 : String) (ts1 ts2 : Int) :
    keyRateLimit ++ separator ++ h1 ++ separator ++ formatInt ts1
        = keyRateLimit ++ separator ++ h2 ++ separator ++ formatInt ts2
      ↔ h1 = h2 ∧ formatInt ts1 = formatInt ts2 := by
  constructor
  · intro h
    have hd := congrArg String.data h
    rw [key_data, key_data, List.append_assoc, List.append_assoc] at hd
    have hd2 := List.append_cancel_left hd
    obtain ⟨e1, e2⟩ := last_dot_split _ _ _ _ (dot_not_mem_formatInt ts1)
      (dot_not_mem_formatInt ts2) hd2
    exact ⟨String.ext e1, String.ext e2⟩
  · rintro ⟨e1, e2⟩
    rw [e1, e2]

theorem getBucketTimestamp_eq_some (rl : RateLimit) (now : Int)
    (h : rl.bucket.tdiv Second ≠ 0) :
    rl.getBucketTimestamp now = some (now - now.tmod (rl.bucket.tdiv Second)) := by
  unfold RateLimit.getBucketTimestamp
  simp only [h, if_false]
  congr 1
  ring

theorem getCacheKey_eq_some (rl : RateLimit) (now ts : Int)
    (h : rl.getBucketTimestamp now = some ts) :
    rl.getCacheKey now
      = some (keyRateLimit ++ separator ++ rl.host ++ separator ++ formatInt ts) := by
  unfold RateLimit.getCacheKey
  rw [h]

theorem getCacheKey_some_inv (rl : RateLimit) (now : Int) (key : String)
    (h : rl.getCacheKey now = some key) :
    ∃ ts, rl.getBucketTimestamp now = some ts ∧
      key = keyRateLimit ++ separator ++ rl.host ++ separator ++ formatInt ts := by
  unfold RateLimit.getCacheKey at h
  cases hts : rl.getBucketTimestamp now with
  | none => rw [hts] at h; cases h
  | some ts =>
    rw [hts] at h
    exact ⟨ts, rfl, (Option.some.inj h).symm⟩

theorem whole_seconds_divisor (rl : RateLimit) (w : Int) (hb : rl.bucket = w * Second) :
    rl.bucket.tdiv Second = w := by
  rw [hb]
  exact Int.mul_tdiv_cancel w (by decide)

theorem getBucketTimestamp_whole_seconds (rl : RateLimit) (w q t : Int)
    (hb : rl.bucket = w * Second) (hw : 1 ≤ w) (ht : 0 ≤ t) (hq : t / w = q) :
    rl.getBucketTimestamp t = some (w * q) := by
  have hdiv := whole_seconds_divisor rl w hb
  have hne : rl.bucket.tdiv Second ≠ 0 := by rw [hdiv]; omega
  rw [getBucketTimestamp_eq_some rl t hne, hdiv, Int.tmod_eq_emod ht (by omega), ← hq]
  have := Int.emod_add_ediv t w
  congr 1
  omega

/-! ## Host matching -/

/-- C4. For a destination that parses with host `h`, `match` returns `(true, nil)` exactly
when the rule's host pattern occurs in `h` as a contiguous, case-sensitive run of
characters, and `(false, nil)` exactly when it does not. The pattern `amfiindia.com`
is found in `portal.amfiindia.com` and neither in `www1.nseindia.com` nor in
`republika.co.id`. -/
theorem match_iff_substring (parseRequestURI : String → Except Error URL) (rl : RateLimit)
    (path h : String) (hparse : parseRequestURI path = .ok { Host := h }) :
    (rl.match_ parseRequestURI path = .ok true ↔ rl.host.data <:+: h.data) ∧
    (rl.match_ parseRequestURI path = .ok false ↔ ¬ rl.host.data <:+: h.data) ∧
    stringsContains "portal.amfiindia.com" "amfiindia.com" = true ∧
    stringsContains "www1.nseindia.com" "amfiindia.com" = false ∧
    stringsContains "republika.co.id" "amfiindia.com" = false := by
  have hm : rl.match_ parseRequestURI path = .ok (stringsContains h rl.host) := by
    simp [RateLimit.match_, RateLimit.getHostFromURL, hparse]
  rw [hm]
  refine ⟨?_, ?_, by decide, by decide, by decide⟩
  · rw [← stringsContains_iff]
    constructor
    · intro e
      exact Except.ok.inj e
    · intro e
      rw [e]
  · rw [← stringsContains_iff]
    constructor
    · intro e
      have := Except.ok.inj e
      simp [this]
    · intro e
      simp only [Bool.not_eq_true] at e
      rw [e]

/-- Witness of C4: the three URLs of `TestRateLimit` against the rule of that test. -/
theorem match_iff_substring_witness :
    (({ host := "amfiindia.com", bucket := 5 * Second, count := 1 } : RateLimit).match_
        plainParseRequestURI url1 = .ok true ↔
      "amfiindia.com".data <:+: "portal.amfiindia.com".data) ∧
    (({ host := "amfiindia.com", bucket := 5 * Second, count := 1 } : RateLimit).match_
        plainParseRequestURI url2 = .ok false ↔
      ¬ "amfiindia.com".data <:+: "www1.nseindia.com".data) ∧
    (({ host := "amfiindia.com", bucket := 5 * Second, count := 1 } : RateLimit).match_
        plainParseRequestURI url3 = .ok false ↔
      ¬ "amfiindia.com".data <:+: "republika.co.id".data) :=
  ⟨(match_iff_substring plainParseRequestURI
      { host := "amfiindia.com", bucket := 5 * Second, count := 1 } url1
      "portal.amfiindia.com" rfl).1,
    (match_iff_substring plainParseRequestURI
      { host := "amfiindia.com", bucket := 5 * Second, count := 1 } url2
      "www1.nseindia.com" rfl).2.1,
    (match_iff_substring plainParseRequestURI
      { host := "amfiindia.com", bucket := 5 * Second, count := 1 } url3
      "republika.co.id" rfl).2.1⟩

/-- C6. For a rule whose window is a whole number `w ≥ 1` of seconds and non-negative
times `t1`, `t2`: the bucket timestamp at `t1` is `t1 - t1 mod w`, it does not exceed
`t1`, the bucket keys at `t1` and `t2` are equal exactly when `t1` and `t2` lie in the
same aligned window (`t1 / w = t2 / w`, floor division), and times in adjacent windows
get different keys. -/
theorem bucket_key_same_window_iff (rl : RateLimit) (w t1 t2 : Int)
    (hb : rl.bucket = w * Second) (hw : 1 ≤ w) (h1 : 0 ≤ t1) (h2 : 0 ≤ t2) :
    rl.getBucketTimestamp t1 = some (t1 - t1 % w) ∧
    t1 - t1 % w ≤ t1 ∧
    (∃ k1 k2, rl.getCacheKey t1 = some k1 ∧ rl.getCacheKey t2 = some k2 ∧
      (k1 = k2 ↔ t1 / w = t2 / w) ∧ (t2 / w = t1 / w + 1 → k1 ≠ k2)) := by
  have hdiv := whole_seconds_divisor rl w hb
  have hne : rl.bucket.tdiv Second ≠ 0 := by rw [hdiv]; omega
  have hts : ∀ t : Int, 0 ≤ t → rl.getBucketTimestamp t = some (t - t % w) := by
    intro t ht
    rw [getBucketTimestamp_eq_some rl t hne, hdiv, Int.tmod_eq_emod ht (by omega)]
  have hnn : ∀ t : Int, 0 ≤ t → 0 ≤ t - t % w := by
    intro t ht
    have := Int.emod_nonneg t (show w ≠ 0 by omega)
    have := Int.emod_add_ediv t w
    have := Int.ediv_nonneg ht (show 0 ≤ w by omega)
    nlinarith
  have hkey : keyRateLimit ++ separator ++ rl.host ++ separator ++ formatInt (t1 - t1 % w)
        = keyRateLimit ++ separator ++ rl.host ++ separator ++ formatInt (t2 - t2 % w)
      ↔ t1 / w = t2 / w := by
    rw [key_eq_iff]
    constructor
    · rintro ⟨_, e⟩
      have e2 := formatInt_inj_of_nonneg _ _ (hnn t1 h1) (hnn t2 h2) e
      have a1 := Int.emod_add_ediv t1 w
      have a2 := Int.emod_add_ediv t2 w
      have : w * (t1 / w) = w * (t2 / w) := by linarith
      exact Int.eq_of_mul_eq_mul_left (show w ≠ 0 by omega) this
    · intro e
      refine ⟨rfl, ?_⟩
      have a1 := Int.emod_add_ediv t1 w
      have a2 := Int.emod_add_ediv t2 w
      have : t1 - t1 % w = t2 - t2 % w := by rw [e] at a1; linarith
      rw [this]
  refine ⟨hts t1 h1, ?_, _, _, getCacheKey_eq_some rl t1 _ (hts t1 h1),
    getCacheKey_eq_some rl t2 _ (hts t2 h2), hkey, ?_⟩
  · have := Int.emod_nonneg t1 (show w ≠ 0 by omega)
    omega
  · intro hadj hk
    have := hkey.1 hk
    omega

/-- Witness of C6: the five-second rule of `TestRateLimit` at the times 12 and 14. -/
theorem bucket_key_same_window_iff_witness :
    ({ host := "amfiindia.com", bucket := 5 * Second, count := 1 } : RateLimit).getBucketTimestamp 12
      = some (12 - 12 % 5) ∧
    (12 : Int) - 12 % 5 ≤ 12 ∧
    (∃ k1 k2,
      ({ host := "amfiindia.com", bucket := 5 * Second, count := 1 } : RateLimit).getCacheKey 12
        = some k1 ∧
      ({ host := "amfiindia.com", bucket := 5 * Second, count := 1 } : RateLimit).getCacheKey 14
        = some k2 ∧
      (k1 = k2 ↔ (12 : Int) / 5 = 14 / 5) ∧ ((14 : Int) / 5 = 12 / 5 + 1 → k1 ≠ k2)) :=
  bucket_key_same_window_iff { host := "amfiindia.com", bucket := 5 * Second, count := 1 }
    5 12 14 rfl (by decide) (by decide) (by decide)

/-! ## Parsing the stored counter -/

theorem isDigit_of_digitVal (c : Char) (d : Nat) (h : digitVal c = some d) :
    c.isDigit = true := by
  unfold digitVal at h
  split at h
  · rename_i hc
    simp only [Char.isDigit, Char.toNat, ge_iff_le, Bool.and_eq_true, decide_eq_true_eq] at *
    exact ⟨UInt32.le_def.2 (by simpa using hc.1), UInt32.le_def.2 (by simpa using hc.2)⟩
  · cases h

theorem parseUintAux_all_digits (l : List Char) (acc n : Nat)
    (h : parseUintAux l acc = some n) : ∀ c ∈ l, c.isDigit = true := by
  induction l generalizing acc with
  | nil => simp
  | cons c cs ih =>
    simp only [parseUintAux] at h
    cases hd : digitVal c with
    | none => rw [hd] at h; cases h
    | some d =>
      rw [hd] at h
      intro x hx
      rcases List.mem_cons.1 hx with rfl | hx
      · exact isDigit_of_digitVal _ d hd
      · exact ih _ h x hx

theorem ParseUint_digits (l : List Char) (n : Nat) (h : ParseUint l = some n) :
    l ≠ [] ∧ ∀ c ∈ l, c.isDigit = true := by
  unfold ParseUint at h
  split at h
  · cases h
  · rename_i hne
    exact ⟨hne, parseUintAux_all_digits l 0 n h⟩

theorem isDecimalInteger_of_ParseInt (s : String) (n : Int) (h : ParseInt s = some n) :
    isDecimalInteger s = true := by
  unfold ParseInt at h
  unfold isDecimalInteger
  split at h
  · cases h
  · rename_i rest heq
    cases hp : ParseUint rest with
    | none => rw [hp] at h; cases h
    | some un =>
      obtain ⟨h1, h2⟩ := ParseUint_digits rest un hp
      simp only [Bool.and_eq_true, Bool.not_eq_true', List.isEmpty_eq_false, List.all_eq_true]
      exact ⟨h1, h2⟩
  · rename_i rest heq
    cases hp : ParseUint rest with
    | none => rw [hp] at h; cases h
    | some un =>
      obtain ⟨h1, h2⟩ := ParseUint_digits rest un hp
      simp only [Bool.and_eq_true, Bool.not_eq_true', List.isEmpty_eq_false, List.all_eq_true]
      exact ⟨h1, h2⟩
  · rename_i c rest hplus hminus heq
    cases hp : ParseUint (c :: rest) with
    | none => rw [hp] at h; cases h
    | some un =>
      obtain ⟨_, h2⟩ := ParseUint_digits (c :: rest) un hp
      simp only [Bool.and_eq_true, List.all_eq_true]
      exact ⟨h2 c (List.mem_cons_self _ _), fun x hx => h2 x (List.mem_cons_of_mem _ hx)⟩

/-! ## The admission decision, case by case -/

theorem matchLoop_first (parseRequestURI : String → Except Error URL)
    (pre post : List RateLimit) (rl : RateLimit) (path : String)
    (hpre : ∀ x ∈ pre, x.match_ parseRequestURI path = .ok false)
    (hrl : rl.match_ parseRequestURI path = .ok true) :
    matchLoop parseRequestURI (pre ++ rl :: post) path = .ok (some rl) := by
  induction pre with
  | nil => simp [matchLoop, hrl]
  | cons x xs ih =>
    have hx := hpre x (List.mem_cons_self _ _)
    simp only [List.cons_append, matchLoop, hx]
    exact ih (fun y hy => hpre y (List.mem_cons_of_mem _ hy))

theorem matchLoop_none (parseRequestURI : String → Except Error URL)
    (l : List RateLimit) (path : String)
    (h : ∀ x ∈ l, x.match_ parseRequestURI path = .ok false) :
    matchLoop parseRequestURI l path = .ok none := by
  induction l with
  | nil => rfl
  | cons x xs ih =>
    simp only [matchLoop, h x (List.mem_cons_self _ _)]
    exact ih (fun y hy => h y (List.mem_cons_of_mem _ hy))

theorem matchLoop_some_mem (parseRequestURI : String → Except Error URL)
    (l : List RateLimit) (path : String) (rl : RateLimit)
    (h : matchLoop parseRequestURI l path = .ok (some rl)) : rl ∈ l := by
  induction l with
  | nil => simp [matchLoop] at h
  | cons x xs ih =>
    simp only [matchLoop] at h
    split at h
    · cases h
    · simp only [Except.ok.injEq, Option.some.injEq] at h
      rw [h]
      exact List.mem_cons_self _ _
    · exact List.mem_cons_of_mem _ (ih h)

theorem isRateLimited_no_match {σ : Type} (parseRequestURI : String → Except Error URL)
    (r : RateLimits σ) (path : String) (now : Int) (s : σ)
    (hm : matchLoop parseRequestURI r.list path = .ok none) :
    r.isRateLimited parseRequestURI path now s = ⟨.value false none, s, []⟩ := by
  unfold RateLimits.isRateLimited
  rw [hm]

theorem isRateLimited_panic {σ : Type} (parseRequestURI : String → Except Error URL)
    (r : RateLimits σ) (path : String) (now : Int) (s : σ) (rl : RateLimit)
    (hm : matchLoop parseRequestURI r.list path = .ok (some rl))
    (hk : rl.getCacheKey now = none) :
    r.isRateLimited parseRequestURI path now s
      = ⟨.panic "runtime error: integer divide by zero", s, []⟩ := by
  unfold RateLimits.isRateLimited
  simp only [hm, hk]

theorem isRateLimited_nil_cache {σ : Type} (parseRequestURI : String → Except Error URL)
    (r : RateLimits σ) (path : String) (now : Int) (s : σ) (rl : RateLimit) (key : String)
    (hm : matchLoop parseRequestURI r.list path = .ok (some rl))
    (hk : rl.getCacheKey now = some key) (hc : r.cache = none) :
    r.isRateLimited parseRequestURI path now s = ⟨.value false none, s, []⟩ := by
  unfold RateLimits.isRateLimited
  simp only [hm, hk, hc]

theorem isRateLimited_ops_key {σ : Type} (parseRequestURI : String → Except Error URL)
    (r : RateLimits σ) (path : String) (now : Int) (s : σ) (rl : RateLimit) (key : String)
    (hm : matchLoop parseRequestURI r.list path = .ok (some rl))
    (hk : rl.getCacheKey now = some key) :
    ∀ op ∈ (r.isRateLimited parseRequestURI path now s).ops, op.key = key := by
  unfold RateLimits.isRateLimited
  simp only [hm, hk]
  repeat' split
  all_goals simp [CacheOp.key]

/-! ## The reliable cache touches one key -/

theorem reliable_Get_state (now : Int) (key : String) (s : Store) :
    (reliableCache.Get now key s).2 = s := by
  unfold reliableCache
  simp only
  split <;> rfl

theorem reliable_Incr_frame (now : Int) (key k : String) (s : Store) (hne : k ≠ key) :
    (reliableCache.Incr now key s).2 k = s k := by
  unfold reliableCache
  simp only
  repeat' split
  all_goals simp [Function.update_noteq hne]

theorem reliable_Expire_frame (now : Int) (key k : String) (d : Int) (s : Store)
    (hne : k ≠ key) : (reliableCache.Expire now key d s).2 k = s k := by
  unfold reliableCache
  simp only
  repeat' split
  all_goals simp [Function.update_noteq hne]

theorem isRateLimited_reliable_frame (parseRequestURI : String → Except Error URL)
    (r : RateLimits Store) (path : String) (now : Int) (s : Store) (rl : RateLimit)
    (key k : String) (hc : r.cache = some reliableCache)
    (hm : matchLoop parseRequestURI r.list path = .ok (some rl))
    (hk : rl.getCacheKey now = some key) (hne : k ≠ key) :
    (r.isRateLimited parseRequestURI path now s).state k = s k := by
  unfold RateLimits.isRateLimited
  simp only [hm, hk, hc]
  have hG := reliable_Get_state now key s
  rcases hGet : reliableCache.Get now key s with ⟨g, s1⟩
  rw [hGet] at hG
  simp only at hG
  subst hG
  have hI := reliable_Incr_frame now key k s1 hne
  rcases hIncr : reliableCache.Incr now key s1 with ⟨i, s2⟩
  rw [hIncr] at hI
  simp only at hI
  have hE := reliable_Expire_frame now key k (wrapInt64 (4 * rl.bucket)) s2 hne
  rcases hExp : reliableCache.Expire now key (wrapInt64 (4 * rl.bucket)) s2 with ⟨x, s3⟩
  rw [hExp] at hE
  simp only at hE
  repeat' split
  all_goals simp_all

/-! ## Claims on errors, precedence and independence -/

/-- C2. For a destination governed by a rule, with a cache configured, in any cache
state: when the `Get` call fails, or the `Incr` call that follows an acceptable read
fails, or the `Expire` call that follows an acceptable increment fails, `isRateLimited`
returns `(true, ErrRateLimitingDown)`; when `Get` succeeds with a non-empty value that is
not a decimal integer it returns `(true, ErrRateLimitingInvalid)`. Each of these results
is a denial. -/
theorem cache_failure_denies {σ : Type} (parseRequestURI : String → Except Error URL)
    (r : RateLimits σ) (cache : Cache σ) (path : String) (now : Int) (s : σ)
    (rl : RateLimit) (key : String) (hc : r.cache = some cache)
    (hm : matchLoop parseRequestURI r.list path = .ok (some rl))
    (hk : rl.getCacheKey now = some key) :
    (∀ e s1, cache.Get now key s = (.error e, s1) →
      (r.isRateLimited parseRequestURI path now s).ret
        = .value true (some ErrRateLimitingDown)) ∧
    (∀ val s1, cache.Get now key s = (.ok val, s1) → val ≠ "" → isDecimalInteger val = false →
      (r.isRateLimited parseRequestURI path now s).ret
        = .value true (some ErrRateLimitingInvalid)) ∧
    (∀ val s1 limit e s2, cache.Get now key s = (.ok val, s1) →
      (if val ≠ "" then ParseInt val else some 0) = some limit → ¬ limit > rl.count →
      cache.Incr now key s1 = (.error e, s2) →
      (r.isRateLimited parseRequestURI path now s).ret
        = .value true (some ErrRateLimitingDown)) ∧
    (∀ val s1 limit incrVal s2 e s3, cache.Get now key s = (.ok val, s1) →
      (if val ≠ "" then ParseInt val else some 0) = some limit → ¬ limit > rl.count →
      cache.Incr now key s1 = (.ok incrVal, s2) → ¬ incrVal > rl.count →
      cache.Expire now key (wrapInt64 (4 * rl.bucket)) s2 = (.error e, s3) →
      (r.isRateLimited parseRequestURI path now s).ret
        = .value true (some ErrRateLimitingDown)) := by
  refine ⟨?_, ?_, ?_, ?_⟩
  · intro e s1 hG
    unfold RateLimits.isRateLimited
    simp only [hm, hk, hc, hG]
  · intro val s1 hG hval hdec
    have hp : ParseInt val = none := by
      cases hp : ParseInt val with
      | none => rfl
      | some n =>
        rw [isDecimalInteger_of_ParseInt val n hp] at hdec
        cases hdec
    unfold RateLimits.isRateLimited
    simp only [hm, hk, hc, hG, hval, hp, ne_eq, not_false_eq_true, if_true]
  · intro val s1 limit e s2 hG hl hle hI
    unfold RateLimits.isRateLimited
    simp only [hm, hk, hc, hG, hl, hle, hI, if_false]
  · intro val s1 limit incrVal s2 e s3 hG hl hle hI hle2 hE
    unfold RateLimits.isRateLimited
    simp only [hm, hk, hc, hG, hl, hle, hI, hle2, hE, if_false]

/-- Witness of C2: the rule of `TestRateLimits` against a cache that is down, and against
a cache that holds the value `12abc`. -/
theorem cache_failure_denies_witness :
    (({ list := [amfiRule], cache := some downCache } : RateLimits Unit).isRateLimited
        plainParseRequestURI url1 100 ()).ret = .value true (some ErrRateLimitingDown) ∧
    (({ list := [amfiRule], cache := some garbageCache } : RateLimits Unit).isRateLimited
        plainParseRequestURI url1 100 ()).ret = .value true (some ErrRateLimitingInvalid) :=
  ⟨(cache_failure_denies plainParseRequestURI { list := [amfiRule], cache := some downCache }
      downCache url1 100 () amfiRule (bucketKey amfiRule 100)
      rfl (by decide) (getCacheKey_eq_some amfiRule 100 100 (by decide))).1
      (.foreign "dial tcp: connection refused") () rfl,
    (cache_failure_denies plainParseRequestURI
      { list := [amfiRule], cache := some garbageCache }
      garbageCache url1 100 () amfiRule (bucketKey amfiRule 100)
      rfl (by decide) (getCacheKey_eq_some amfiRule 100 100 (by decide))).2.1
      "12abc" () rfl (by decide) (by decide)⟩

theorem governed_behaviour {σ : Type} (parseRequestURI : String → Except Error URL)
    (r : RateLimits σ) (path : String) (now : Int) (s : σ) (rl : RateLimit)
    (hm : matchLoop parseRequestURI r.list path = .ok (some rl)) :
    (rl.getCacheKey now = none →
      (r.isRateLimited parseRequestURI path now s).ret
          = .panic "runtime error: integer divide by zero" ∧
        (r.isRateLimited parseRequestURI path now s).ops = []) ∧
    (∀ key cache, rl.getCacheKey now = some key → r.cache = some cache →
      (∃ rest, (r.isRateLimited parseRequestURI path now s).ops = .get key :: rest) ∧
      (∀ val s1 limit, cache.Get now key s = (.ok val, s1) →
        (if val ≠ "" then ParseInt val else some 0) = some limit →
        (limit > rl.count →
          (r.isRateLimited parseRequestURI path now s).ret = .value true none ∧
          (r.isRateLimited parseRequestURI path now s).ops = [.get key]) ∧
        (¬ limit > rl.count →
          (∃ rest, (r.isRateLimited parseRequestURI path now s).ops
              = .get key :: .incr key :: rest) ∧
          (∀ incrVal s2, cache.Incr now key s1 = (.ok incrVal, s2) →
            (incrVal > rl.count →
              (r.isRateLimited parseRequestURI path now s).ret = .value true none ∧
              (r.isRateLimited parseRequestURI path now s).ops = [.get key, .incr key]) ∧
            (¬ incrVal > rl.count →
              (r.isRateLimited parseRequestURI path now s).ops
                = [.get key, .incr key, .expire key (wrapInt64 (4 * rl.bucket))]))))) := by
  refine ⟨?_, ?_⟩
  · intro hk
    rw [isRateLimited_panic parseRequestURI r path now s rl hm hk]
    exact ⟨rfl, rfl⟩
  · intro key cache hk hc
    refine ⟨?_, ?_⟩
    · unfold RateLimits.isRateLimited
      simp only [hm, hk, hc]
      repeat' split
      all_goals simp
    · intro val s1 limit hG hl
      refine ⟨?_, ?_⟩
      · intro hgt
        unfold RateLimits.isRateLimited
        simp only [hm, hk, hc, hG, hl, hgt, if_true, and_self]
      · intro hgt
        refine ⟨?_, ?_⟩
        · unfold RateLimits.isRateLimited
          simp only [hm, hk, hc, hG, hl, hgt, if_false]
          repeat' split
          all_goals simp
        · intro incrVal s2 hI
          refine ⟨?_, ?_⟩
          · intro hgt2
            unfold RateLimits.isRateLimited
            simp only [hm, hk, hc, hG, hl, hgt, hI, hgt2, if_false, if_true, and_self]
          · intro hgt2
            unfold RateLimits.isRateLimited
            simp only [hm, hk, hc, hG, hl, hgt, hI, hgt2, if_false]
            split <;> rfl

/-- C5. For a parseable destination no `match` fails: each rule's `match` returns whether
its pattern occurs in the host. In any registry the first rule in insertion order whose
`match` returns true is the one the loop selects, later matching rules notwithstanding,
and it governs the call: the call behaves exactly as on the registry that holds that rule
alone; with a cache configured the first cache operation is `Get` on that rule's bucket
key; the value read is compared with that rule's count (above it: `(true, nil)` after the
read alone; otherwise `Incr` on that rule's key follows); the incremented value is
compared with that rule's count (above it: `(true, nil)`; otherwise `Expire` on that
rule's key with four times that rule's window follows). When no registered rule matches,
the call returns `(false, nil)`, issues no cache operation and leaves the cache state as
it was. -/
theorem first_match_governs {σ : Type} (parseRequestURI : String → Except Error URL)
    (r : RateLimits σ) (path : String) (u : URL) (hparse : parseRequestURI path = .ok u) :
    (∀ x : RateLimit, x.match_ parseRequestURI path = .ok (stringsContains u.Host x.host)) ∧
    (∀ pre rl post, r.list = pre ++ rl :: post →
      (∀ x ∈ pre, x.match_ parseRequestURI path = .ok false) →
      rl.match_ parseRequestURI path = .ok true →
      matchLoop parseRequestURI r.list path = .ok (some rl) ∧
      ∀ now s,
        r.isRateLimited parseRequestURI path now s
          = ({ list := [rl], cache := r.cache } : RateLimits σ).isRateLimited
              parseRequestURI path now s ∧
        (rl.getCacheKey now = none →
          (r.isRateLimited parseRequestURI path now s).ret
              = .panic "runtime error: integer divide by zero" ∧
            (r.isRateLimited parseRequestURI path now s).ops = []) ∧
        (∀ key cache, rl.getCacheKey now = some key → r.cache = some cache →
          (∃ rest, (r.isRateLimited parseRequestURI path now s).ops = .get key :: rest) ∧
          (∀ val s1 limit, cache.Get now key s = (.ok val, s1) →
            (if val ≠ "" then ParseInt val else some 0) = some limit →
            (limit > rl.count →
              (r.isRateLimited parseRequestURI path now s).ret = .value true none ∧
              (r.isRateLimited parseRequestURI path now s).ops = [.get key]) ∧
            (¬ limit > rl.count →
              (∃ rest, (r.isRateLimited parseRequestURI path now s).ops
                  = .get key :: .incr key :: rest) ∧
              (∀ incrVal s2, cache.Incr now key s1 = (.ok incrVal, s2) →
                (incrVal > rl.count →
                  (r.isRateLimited parseRequestURI path now s).ret = .value true none ∧
                  (r.isRateLimited parseRequestURI path now s).ops
                    = [.get key, .incr key]) ∧
                (¬ incrVal > rl.count →
                  (r.isRateLimited parseRequestURI path now s).ops
                    = [.get key, .incr key,
                        .expire key (wrapInt64 (4 * rl.bucket))])))))) ∧
    ((∀ x ∈ r.list, x.match_ parseRequestURI path = .ok false) →
      ∀ now s, (r.isRateLimited parseRequestURI path now s).ret = .value false none ∧
        (r.isRateLimited parseRequestURI path now s).ops = [] ∧
        (r.isRateLimited parseRequestURI path now s).state = s) := by
  refine ⟨?_, ?_, ?_⟩
  · intro x
    simp [RateLimit.match_, RateLimit.getHostFromURL, hparse]
  · intro pre rl post hlist hpre hrl
    have h1 := matchLoop_first parseRequestURI pre post rl path hpre hrl
    rw [← hlist] at h1
    refine ⟨h1, ?_⟩
    intro now s
    obtain ⟨g1, g2⟩ := governed_behaviour parseRequestURI r path now s rl h1
    refine ⟨?_, g1, g2⟩
    have h2 := matchLoop_first parseRequestURI [] [] rl path (by simp) hrl
    simp only [List.nil_append] at h2
    unfold RateLimits.isRateLimited
    simp only [h1, h2]
  · intro hnone now s
    rw [isRateLimited_no_match parseRequestURI r path now s
      (matchLoop_none parseRequestURI r.list path hnone)]
    exact ⟨rfl, rfl, rfl⟩

/-- Witness of C5: three rules, the last two of which match the first test URL; the loop
selects the first of those two and the call starts with `Get` on that rule's key. -/
theorem first_match_governs_witness :
    matchLoop plainParseRequestURI
        [nseRule, amfiRule, { host := "portal", bucket := 1 * Second, count := 7 }] url1
      = .ok (some amfiRule) ∧
    ∃ rest,
      (({ list := [nseRule, amfiRule, { host := "portal", bucket := 1 * Second, count := 7 }],
          cache := some reliableCache } : RateLimits Store).isRateLimited
          plainParseRequestURI url1 100 Store.empty).ops
        = .get (bucketKey amfiRule 100) :: rest :=
  ⟨((first_match_governs plainParseRequestURI
      { list := [nseRule, amfiRule, { host := "portal", bucket := 1 * Second, count := 7 }],
        cache := some reliableCache }
      url1 { Host := "portal.amfiindia.com" } rfl).2.1 [nseRule] amfiRule
      [{ host := "portal", bucket := 1 * Second, count := 7 }] rfl (by decide)
      (by decide)).1,
    ((((first_match_governs plainParseRequestURI
      { list := [nseRule, amfiRule, { host := "portal", bucket := 1 * Second, count := 7 }],
        cache := some reliableCache }
      url1 { Host := "portal.amfiindia.com" } rfl).2.1 [nseRule] amfiRule
      [{ host := "portal", bucket := 1 * Second, count := 7 }] rfl (by decide)
      (by decide)).2 100 Store.empty).2.2 (bucketKey amfiRule 100) reliableCache
      (getCacheKey_eq_some amfiRule 100 100 (by decide)) rfl).1⟩

/-- C9. Two rules with different host patterns never share a bucket key, whatever the
two times and whatever dots and digits the patterns contain. Hence an `isRateLimited`
evaluation governed by one rule issues every cache operation on that rule's key, and on
the reliable cache it leaves the entry (counter and expiry) under every bucket key of the
other rule as it was. -/
theorem rules_do_not_interact (parseRequestURI : String → Except Error URL)
    (r1 r2 : RateLimit) (t1 t2 : Int) (k1 k2 : String) (hhost : r1.host ≠ r2.host)
    (hk1 : r1.getCacheKey t1 = some k1) (hk2 : r2.getCacheKey t2 = some k2) :
    k1 ≠ k2 ∧
    (∀ (σ : Type) (reg : RateLimits σ) (path : String) (s : σ),
      matchLoop parseRequestURI reg.list path = .ok (some r1) →
      ∀ op ∈ (reg.isRateLimited parseRequestURI path t1 s).ops, op.key ≠ k2) ∧
    (∀ (reg : RateLimits Store) (path : String) (s : Store),
      reg.cache = some reliableCache →
      matchLoop parseRequestURI reg.list path = .ok (some r1) →
      (reg.isRateLimited parseRequestURI path t1 s).state k2 = s k2) := by
  have hne : k1 ≠ k2 := by
    obtain ⟨ts1, _, e1⟩ := getCacheKey_some_inv r1 t1 k1 hk1
    obtain ⟨ts2, _, e2⟩ := getCacheKey_some_inv r2 t2 k2 hk2
    intro h
    rw [e1, e2, key_eq_iff] at h
    exact hhost h.1
  refine ⟨hne, ?_, ?_⟩
  · intro σ reg path s hm op hop
    rw [isRateLimited_ops_key parseRequestURI reg path t1 s r1 k1 hm hk1 op hop]
    exact hne
  · intro reg path s hc hm
    exact isRateLimited_reliable_frame parseRequestURI reg path t1 s r1 k1 k2 hc hm hk1
      (Ne.symm hne)

/-- Witness of C9: host patterns `a` and `a.1` at the times 10 and 0. -/
theorem rules_do_not_interact_witness :
    keyRateLimit ++ separator ++ "a.1" ++ separator ++ formatInt 0
      ≠ keyRateLimit ++ separator ++ "a" ++ separator ++ formatInt 10 :=
  (rules_do_not_interact plainParseRequestURI
    { host := "a.1", bucket := 1 * Second, count := 1 }
    { host := "a", bucket := 1 * Second, count := 1 } 0 10 _ _ (by decide)
    (getCacheKey_eq_some _ 0 0 (by decide)) (getCacheKey_eq_some _ 10 10 (by decide))).1

/-! ## One evaluation on the reliable cache -/

theorem tmod_bounds (a w : Int) (hw : 0 < w) : -w < a.tmod w ∧ a.tmod w < w := by
  refine ⟨?_, Int.tmod_lt_of_pos a hw⟩
  obtain ⟨n, rfl⟩ := Int.eq_ofNat_of_zero_le hw.le
  have hn : 0 < n := by omega
  cases a with
  | ofNat m =>
    have h := Int.tmod_nonneg (n : Int) (Int.ofNat_nonneg m)
    exact lt_of_lt_of_le (by omega) h
  | negSucc m =>
    have h := Nat.mod_lt (m + 1) hn
    change -(n : Int) < -(((m + 1) % n : Nat) : Int)
    omega

theorem lookup_update_same (s : Store) (key : String) (now : Int) (e : Entry) :
    Store.lookup (Function.update s key (some e)) now key
      = match e.expireAt with
        | none => some e
        | some t => if now * Second < t then some e else none := by
  simp [Store.lookup]

theorem step_absent (parseRequestURI : String → Except Error URL)
    (r : RateLimits Store) (path : String) (now : Int) (s : Store) (rl : RateLimit)
    (key : String) (hc : r.cache = some reliableCache)
    (hm : matchLoop parseRequestURI r.list path = .ok (some rl))
    (hk : rl.getCacheKey now = some key) (hl : s.lookup now key = none)
    (h1 : 1 ≤ rl.count) :
    r.isRateLimited parseRequestURI path now s
      = ⟨.value false none,
          Function.update s key
            (some { val := "1", expireAt := some (now * Second + wrapInt64 (4 * rl.bucket)) }),
          [.get key, .incr key, .expire key (wrapInt64 (4 * rl.bucket))]⟩ := by
  unfold RateLimits.isRateLimited
  simp only [hm, hk, hc]
  have h0 : ¬ (0 : Int) > rl.count := by omega
  have h1' : ¬ (1 : Int) > rl.count := by omega
  simp [reliableCache, hl, lookup_update_same, h0, h1']

theorem step_present (parseRequestURI : String → Except Error URL)
    (r : RateLimits Store) (path : String) (now : Int) (s : Store) (rl : RateLimit)
    (key : String) (e : Entry) (m : Int) (hc : r.cache = some reliableCache)
    (hm : matchLoop parseRequestURI r.list path = .ok (some rl))
    (hk : rl.getCacheKey now = some key) (hl : s.lookup now key = some e)
    (hp : ParseInt e.val = some m) :
    r.isRateLimited parseRequestURI path now s
      = if m > rl.count then ⟨.value true none, s, [.get key]⟩
        else if ¬ m + 1 < 9223372036854775808 then
          ⟨.value true (some ErrRateLimitingDown), s, [.get key, .incr key]⟩
        else if m + 1 > rl.count then
          ⟨.value true none,
            Function.update s key (some { val := formatInt (m + 1), expireAt := e.expireAt }),
            [.get key, .incr key]⟩
        else
          ⟨.value false none,
            Function.update s key
              (some { val := formatInt (m + 1),
                      expireAt := some (now * Second + wrapInt64 (4 * rl.bucket)) }),
            [.get key, .incr key, .expire key (wrapInt64 (4 * rl.bucket))]⟩ := by
  have hval : e.val ≠ "" := by
    intro h
    rw [h] at hp
    have h2 : ParseInt "" = none := by decide
    rw [h2] at hp
    cases hp
  have hlive : (match e.expireAt with
      | none => some ({ val := formatInt (m + 1), expireAt := e.expireAt } : Entry)
      | some t => if now * Second < t then
          some ({ val := formatInt (m + 1), expireAt := e.expireAt } : Entry) else none)
      = some { val := formatInt (m + 1), expireAt := e.expireAt } := by
    unfold Store.lookup at hl
    cases hs : s key with
    | none => rw [hs] at hl; cases hl
    | some e' =>
      rw [hs] at hl
      simp only at hl
      cases he : e'.expireAt with
      | none =>
        rw [he] at hl
        simp only [Option.some.injEq] at hl
        rw [← hl, he]
      | some t =>
        rw [he] at hl
        simp only at hl
        split at hl
        · rename_i hlt
          simp only [Option.some.injEq] at hl
          rw [← hl, he]
          simp [hlt]
        · cases hl
  unfold RateLimits.isRateLimited
  simp only [hm, hk, hc]
  by_cases hgt : m > rl.count
  · simp [reliableCache, hl, hval, hp, hgt]
  · by_cases hov : m + 1 < 9223372036854775808
    · by_cases hgt2 : m + 1 > rl.count
      · simp [reliableCache, hl, hval, hp, hgt, hov, hgt2]
      · simp [reliableCache, hl, hval, hp, hgt, hov, hgt2, lookup_update_same, hlive]
    · simp [reliableCache, hl, hval, hp, hgt, hov]

theorem wrapInt64_of_range (x : Int) (h1 : -2 ^ 63 ≤ x) (h2 : x < 2 ^ 63) :
    wrapInt64 x = x := by
  unfold wrapInt64
  norm_num at h1 h2 ⊢
  omega

theorem wrapInt64_eq_iff (x : Int) :
    wrapInt64 x = x ↔ (-2 ^ 63 ≤ x ∧ x < 2 ^ 63) := by
  unfold wrapInt64
  norm_num
  omega

theorem same_window_live (rl : RateLimit) (B t t0 : Int) (hw : Second ≤ rl.bucket)
    (ht : rl.getBucketTimestamp t = some B) (ht0 : rl.getBucketTimestamp t0 = some B) :
    t * Second < t0 * Second + 4 * rl.bucket := by
  have hS : Second = 1000000000 := rfl
  have hdiv : rl.bucket.tdiv Second = rl.bucket / 1000000000 := by
    rw [hS] at hw ⊢
    exact Int.tdiv_eq_ediv (by omega) (by norm_num)
  have hwpos : 0 < rl.bucket / 1000000000 := by
    rw [hS] at hw
    omega
  have hne : rl.bucket.tdiv Second ≠ 0 := by rw [hdiv]; omega
  rw [getBucketTimestamp_eq_some rl t hne, hdiv] at ht
  rw [getBucketTimestamp_eq_some rl t0 hne, hdiv] at ht0
  have b1 := tmod_bounds t _ hwpos
  have b2 := tmod_bounds t0 _ hwpos
  have e1 := Option.some.inj ht
  have e2 := Option.some.inj ht0
  rw [hS]
  omega

theorem formatInt_one : formatInt 1 = "1" := by
  simp [formatInt, formatNat]
  rfl

theorem lookup_some_inv (s : Store) (now : Int) (key : String) (e : Entry)
    (h : s.lookup now key = some e) : s key = some e := by
  unfold Store.lookup at h
  cases hs : s key with
  | none => rw [hs] at h; cases h
  | some e' =>
    rw [hs] at h
    simp only at h
    cases he : e'.expireAt with
    | none => rw [he] at h; exact h
    | some t =>
      rw [he] at h
      simp only at h
      split at h
      · exact h
      · cases h

theorem window_step (parseRequestURI : String → Except Error URL)
    (r : RateLimits Store) (path : String) (rl : RateLimit) (B : Int)
    (hc : r.cache = some reliableCache)
    (hm : matchLoop parseRequestURI r.list path = .ok (some rl))
    (hw : Second ≤ rl.bucket) (hov : 4 * rl.bucket < 2 ^ 63)
    (h1 : 1 ≤ rl.count) (h2 : rl.count + 1 < 2 ^ 63)
    (n : Nat) (s : Store) (t : Int) (ht : rl.getBucketTimestamp t = some B)
    (hinv : CounterAfter rl B s n) :
    (r.isRateLimited parseRequestURI path t s).ret = .value (decide (rl.count ≤ n)) none ∧
    CounterAfter rl B (r.isRateLimited parseRequestURI path t s).state (n + 1) := by
  have hk : rl.getCacheKey t = some (bucketKey rl B) := getCacheKey_eq_some rl t B ht
  have hS : Second = 1000000000 := rfl
  have hwrap : wrapInt64 (4 * rl.bucket) = 4 * rl.bucket := by
    apply wrapInt64_of_range _ _ hov
    rw [hS] at hw
    norm_num
    omega
  have h2' : rl.count + 1 < 9223372036854775808 := by
    norm_num at h2
    exact h2
  cases n with
  | zero =>
    have hl : s.lookup t (bucketKey rl B) = none := by
      unfold CounterAfter at hinv
      simp [Store.lookup, hinv]
    rw [step_absent parseRequestURI r path t s rl _ hc hm hk hl h1, hwrap]
    refine ⟨?_, ?_⟩
    · have hd : ¬ rl.count ≤ ((0 : Nat) : Int) := by omega
      rw [decide_eq_false hd]
    · refine ⟨t, ht, ?_⟩
      have hmin : min (((0 : Nat) : Int) + 1) (rl.count + 1) = 1 := by omega
      dsimp only
      rw [Function.update_same, hmin, formatInt_one]
  | succ n =>
    obtain ⟨t0, ht0, hs⟩ := hinv
    have hlive := same_window_live rl B t t0 hw ht ht0
    have hl : s.lookup t (bucketKey rl B)
        = some { val := formatInt (min ((n : Int) + 1) (rl.count + 1)),
                 expireAt := some (t0 * Second + 4 * rl.bucket) } := by
      simp [Store.lookup, hs, hlive]
    have hm0 : 0 ≤ min ((n : Int) + 1) (rl.count + 1) := by omega
    have hm1 : min ((n : Int) + 1) (rl.count + 1) < 2 ^ 63 := by
      norm_num
      omega
    have hp := ParseInt_formatInt _ hm0 hm1
    rw [step_present parseRequestURI r path t s rl _ _ _ hc hm hk hl hp, hwrap]
    by_cases hgt : min ((n : Int) + 1) (rl.count + 1) > rl.count
    · rw [if_pos hgt]
      refine ⟨?_, ?_⟩
      · have hd : rl.count ≤ ((n + 1 : Nat) : Int) := by omega
        rw [decide_eq_true hd]
      · refine ⟨t0, ht0, ?_⟩
        have hmin : min (((n + 1 : Nat) : Int) + 1) (rl.count + 1)
            = min ((n : Int) + 1) (rl.count + 1) := by omega
        rw [hmin]
        exact hs
    · rw [if_neg hgt]
      have hlt : min ((n : Int) + 1) (rl.count + 1) + 1 < 9223372036854775808 := by omega
      rw [if_neg (not_not.2 hlt)]
      by_cases hgt2 : min ((n : Int) + 1) (rl.count + 1) + 1 > rl.count
      · rw [if_pos hgt2]
        refine ⟨?_, ?_⟩
        · have hd : rl.count ≤ ((n + 1 : Nat) : Int) := by omega
          rw [decide_eq_true hd]
        · refine ⟨t0, ht0, ?_⟩
          have hmin : min (((n + 1 : Nat) : Int) + 1) (rl.count + 1)
              = min ((n : Int) + 1) (rl.count + 1) + 1 := by omega
          dsimp only
          rw [Function.update_same, hmin]
      · rw [if_neg hgt2]
        refine ⟨?_, ?_⟩
        · have hd : ¬ rl.count ≤ ((n + 1 : Nat) : Int) := by omega
          rw [decide_eq_false hd]
        · refine ⟨t, ht, ?_⟩
          have hmin : min (((n + 1 : Nat) : Int) + 1) (rl.count + 1)
              = min ((n : Int) + 1) (rl.count + 1) + 1 := by omega
          dsimp only
          rw [Function.update_same, hmin]

theorem window_run (parseRequestURI : String → Except Error URL)
    (r : RateLimits Store) (path : String) (rl : RateLimit) (B : Int)
    (hc : r.cache = some reliableCache)
    (hm : matchLoop parseRequestURI r.list path = .ok (some rl))
    (hw : Second ≤ rl.bucket) (hov : 4 * rl.bucket < 2 ^ 63)
    (h1 : 1 ≤ rl.count) (h2 : rl.count + 1 < 2 ^ 63) (times : List Int) :
    ∀ (n : Nat) (s : Store), (∀ t ∈ times, rl.getBucketTimestamp t = some B) →
      CounterAfter rl B s n →
      (runSame parseRequestURI r path times s).1
        = (List.range times.length).map
            (fun i => Return.value (decide (rl.count ≤ ((n + i : Nat) : Int))) none) := by
  induction times with
  | nil =>
    intro n s _ _
    rfl
  | cons t ts ih =>
    intro n s hwin hinv
    obtain ⟨hret, hnext⟩ := window_step parseRequestURI r path rl B hc hm hw hov h1 h2 n s t
      (hwin t (List.mem_cons_self _ _)) hinv
    have htl := ih (n + 1) _ (fun x hx => hwin x (List.mem_cons_of_mem _ hx)) hnext
    simp only [runSame, List.length_cons, List.range_succ_eq_map, List.map_cons, List.map_map,
      hret, htl, Nat.add_zero]
    congr 1
    apply List.map_congr_left
    intro i _
    simp only [Function.comp]
    have : n + 1 + i = n + (i + 1) := by omega
    rw [this]

theorem step_absent_low (parseRequestURI : String → Except Error URL)
    (r : RateLimits Store) (path : String) (now : Int) (s : Store) (rl : RateLimit)
    (key : String) (hc : r.cache = some reliableCache)
    (hm : matchLoop parseRequestURI r.list path = .ok (some rl))
    (hk : rl.getCacheKey now = some key) (hl : s.lookup now key = none)
    (h1 : rl.count < 1) :
    r.isRateLimited parseRequestURI path now s
      = if 0 > rl.count then ⟨.value true none, s, [.get key]⟩
        else
          ⟨.value true none,
            Function.update s key (some { val := "1", expireAt := none }),
            [.get key, .incr key]⟩ := by
  unfold RateLimits.isRateLimited
  simp only [hm, hk, hc]
  by_cases h0 : 0 > rl.count
  · simp [reliableCache, hl, h0]
  · have h1' : (1 : Int) > rl.count := by omega
    simp [reliableCache, hl, h0, h1']

theorem step_unparsed (parseRequestURI : String → Except Error URL)
    (r : RateLimits Store) (path : String) (now : Int) (s : Store) (rl : RateLimit)
    (key : String) (e : Entry) (hc : r.cache = some reliableCache)
    (hm : matchLoop parseRequestURI r.list path = .ok (some rl))
    (hk : rl.getCacheKey now = some key) (hl : s.lookup now key = some e)
    (hp : ParseInt e.val = none) :
    (r.isRateLimited parseRequestURI path now s).state = s ∧
    ∃ err, (r.isRateLimited parseRequestURI path now s).ret = .value true err := by
  unfold RateLimits.isRateLimited
  simp only [hm, hk, hc]
  by_cases hval : e.val = ""
  · have hp0 : ParseInt "" = none := by decide
    by_cases h0 : 0 > rl.count
    · simp [reliableCache, hl, hval, h0]
    · simp [reliableCache, hl, hval, h0, hp0]
  · simp [reliableCache, hl, hval, hp]

theorem admitted_ops {σ : Type} (parseRequestURI : String → Except Error URL)
    (r : RateLimits σ) (cache : Cache σ) (path : String) (now : Int) (s : σ)
    (rl : RateLimit) (key : String) (hc : r.cache = some cache)
    (hm : matchLoop parseRequestURI r.list path = .ok (some rl))
    (hk : rl.getCacheKey now = some key)
    (hpass : (r.isRateLimited parseRequestURI path now s).ret = .value false none) :
    (r.isRateLimited parseRequestURI path now s).ops
      = [.get key, .incr key, .expire key (wrapInt64 (4 * rl.bucket))] := by
  unfold RateLimits.isRateLimited at hpass ⊢
  simp only [hm, hk, hc] at hpass ⊢
  repeat' split
  all_goals simp_all

theorem admitted_entry (parseRequestURI : String → Except Error URL)
    (r : RateLimits Store) (path : String) (now : Int) (s : Store) (rl : RateLimit)
    (key : String) (hc : r.cache = some reliableCache)
    (hm : matchLoop parseRequestURI r.list path = .ok (some rl))
    (hk : rl.getCacheKey now = some key)
    (hpass : (r.isRateLimited parseRequestURI path now s).ret = .value false none) :
    ∃ e, (r.isRateLimited parseRequestURI path now s).state key = some e ∧
      e.expireAt = some (now * Second + wrapInt64 (4 * rl.bucket)) := by
  cases hl : s.lookup now key with
  | none =>
    by_cases h1 : 1 ≤ rl.count
    · rw [step_absent parseRequestURI r path now s rl key hc hm hk hl h1]
      exact ⟨_, Function.update_same _ _ _, rfl⟩
    · rw [step_absent_low parseRequestURI r path now s rl key hc hm hk hl (by omega)] at hpass
      split at hpass <;> simp at hpass
  | some e =>
    cases hp : ParseInt e.val with
    | none =>
      obtain ⟨_, err, h⟩ := step_unparsed parseRequestURI r path now s rl key e hc hm hk hl hp
      rw [h] at hpass
      simp at hpass
    | some m =>
      rw [step_present parseRequestURI r path now s rl key e m hc hm hk hl hp] at hpass ⊢
      split at hpass
      · simp at hpass
      · split at hpass
        · simp at hpass
        · split at hpass
          · simp at hpass
          · rename_i h1 h2 h3
            rw [if_neg h1, if_neg h2, if_neg h3]
            exact ⟨_, Function.update_same _ _ _, rfl⟩

theorem step_all_expire (parseRequestURI : String → Except Error URL)
    (r : RateLimits Store) (path : String) (now : Int) (s : Store)
    (hc : r.cache = some reliableCache) (hcount : ∀ rl ∈ r.list, rl.count ≠ 0)
    (hs : AllExpire s) : AllExpire (r.isRateLimited parseRequestURI path now s).state := by
  have hupd : ∀ (key : String) (e : Entry), e.expireAt.isSome = true →
      AllExpire (Function.update s key (some e)) := by
    intro key e he k e' hk
    by_cases hkk : k = key
    · subst hkk
      rw [Function.update_same] at hk
      rw [← Option.some.inj hk]
      exact he
    · rw [Function.update_noteq hkk] at hk
      exact hs k e' hk
  cases hm : matchLoop parseRequestURI r.list path with
  | error err =>
    unfold RateLimits.isRateLimited
    simp only [hm]
    exact hs
  | ok found =>
    cases found with
    | none =>
      rw [isRateLimited_no_match parseRequestURI r path now s hm]
      exact hs
    | some rl =>
      have hne := hcount rl (matchLoop_some_mem parseRequestURI r.list path rl hm)
      cases hk : rl.getCacheKey now with
      | none =>
        rw [isRateLimited_panic parseRequestURI r path now s rl hm hk]
        exact hs
      | some key =>
        cases hl : s.lookup now key with
        | none =>
          by_cases h1 : 1 ≤ rl.count
          · rw [step_absent parseRequestURI r path now s rl key hc hm hk hl h1]
            exact hupd key _ rfl
          · rw [step_absent_low parseRequestURI r path now s rl key hc hm hk hl (by omega)]
            rw [if_pos (by omega)]
            exact hs
        | some e =>
          have he : e.expireAt.isSome = true := hs key e (lookup_some_inv s now key e hl)
          cases hp : ParseInt e.val with
          | none =>
            rw [(step_unparsed parseRequestURI r path now s rl key e hc hm hk hl hp).1]
            exact hs
          | some m =>
            rw [step_present parseRequestURI r path now s rl key e m hc hm hk hl hp]
            split
            · exact hs
            · split
              · exact hs
              · split
                · exact hupd key _ he
                · exact hupd key _ rfl

theorem runCalls_all_expire (parseRequestURI : String → Except Error URL)
    (r : RateLimits Store) (hc : r.cache = some reliableCache)
    (hcount : ∀ rl ∈ r.list, rl.count ≠ 0) (seq : List (String × Int)) :
    ∀ s : Store, AllExpire s → AllExpire (runCalls parseRequestURI r seq s) := by
  induction seq with
  | nil =>
    intro s hs
    exact hs
  | cons c cs ih =>
    intro s hs
    obtain ⟨path, now⟩ := c
    exact ih _ (step_all_expire parseRequestURI r path now s hc hcount hs)

/-! ## Registration -/

theorem addRateLimit_rules {σ : Type} (parseDuration : String → Except Error Int)
    (r : RateLimits σ) (host bucket : String) (count : Int)
    (h : ∀ rl ∈ r.list, rl.host ≠ "" ∧ rl.count ≠ 0) :
    (r.addRateLimit parseDuration host bucket count).2.cache = r.cache ∧
    ∀ rl ∈ (r.addRateLimit parseDuration host bucket count).2.list,
      rl.host ≠ "" ∧ rl.count ≠ 0 := by
  unfold RateLimits.addRateLimit
  by_cases hh : host = ""
  · rw [if_pos hh]
    exact ⟨rfl, h⟩
  · rw [if_neg hh]
    by_cases hb : bucket = ""
    · rw [if_pos hb]
      exact ⟨rfl, h⟩
    · rw [if_neg hb]
      by_cases hcnt : count = 0
      · rw [if_pos hcnt]
        exact ⟨rfl, h⟩
      · rw [if_neg hcnt]
        cases parseDuration bucket with
        | error err => exact ⟨rfl, h⟩
        | ok bucketTime =>
          refine ⟨rfl, ?_⟩
          intro rl hrl
          simp only [List.mem_append, List.mem_singleton] at hrl
          rcases hrl with hrl | hrl
          · exact h rl hrl
          · rw [hrl]
            exact ⟨hh, hcnt⟩

theorem addAll_rules {σ : Type} (parseDuration : String → Except Error Int)
    (calls : List AddCall) :
    ∀ r : RateLimits σ, (∀ rl ∈ r.list, rl.host ≠ "" ∧ rl.count ≠ 0) →
      (addAll parseDuration r calls).cache = r.cache ∧
      ∀ rl ∈ (addAll parseDuration r calls).list, rl.host ≠ "" ∧ rl.count ≠ 0 := by
  induction calls with
  | nil =>
    intro r h
    exact ⟨rfl, h⟩
  | cons c cs ih =>
    intro r h
    obtain ⟨h1, h2⟩ := addRateLimit_rules parseDuration r c.host c.bucket c.count h
    obtain ⟨h3, h4⟩ := ih _ h2
    exact ⟨h3.trans h1, h4⟩

/-! ## Claims on counting and expiry -/

/-- C1 (amended). For a rule that governs a destination, with count `L`, `1 ≤ L` and
`L + 1` an `int64`, and a window of a whole number `w ≥ 1` of seconds whose fourfold is
an `int64` duration: every sequence of `isRateLimited` calls for that destination at times
`t ≥ 0` (seconds since the epoch) of one aligned window (`t / w = q` for all of them, floor
division), run one after the other on the reliable cache from a state without the key of
that window, returns `(false, nil)` in each of the first `L` calls and `(true, nil)` in
every later one. All calls compute the key of the window that starts at `w * q`. -/
theorem admits_first_L_then_limits (parseRequestURI : String → Except Error URL)
    (r : RateLimits Store) (path : String) (rl : RateLimit) (w q : Int) (times : List Int)
    (s0 : Store) (hc : r.cache = some reliableCache)
    (hm : matchLoop parseRequestURI r.list path = .ok (some rl))
    (hb : rl.bucket = w * Second) (hw : 1 ≤ w) (hov : 4 * rl.bucket < 2 ^ 63)
    (h1 : 1 ≤ rl.count) (h2 : rl.count + 1 < 2 ^ 63)
    (hwin : ∀ t ∈ times, 0 ≤ t ∧ t / w = q)
    (habsent : s0 (keyRateLimit ++ separator ++ rl.host ++ separator ++ formatInt (w * q))
      = none) :
    (∀ t ∈ times, rl.getCacheKey t
      = some (keyRateLimit ++ separator ++ rl.host ++ separator ++ formatInt (w * q))) ∧
    (runSame parseRequestURI r path times s0).1
      = (List.range times.length).map
          (fun (i : Nat) => Return.value (decide (rl.count ≤ (i : Int))) none) := by
  have hts : ∀ t ∈ times, rl.getBucketTimestamp t = some (w * q) :=
    fun t ht => getBucketTimestamp_whole_seconds rl w q t hb hw (hwin t ht).1 (hwin t ht).2
  have hsec : Second ≤ rl.bucket := by
    have hS : Second = 1000000000 := rfl
    rw [hb, hS]
    omega
  refine ⟨fun t ht => getCacheKey_eq_some rl t (w * q) (hts t ht), ?_⟩
  have h := window_run parseRequestURI r path rl (w * q) hc hm hsec hov h1 h2 times 0 s0 hts
    habsent
  rw [h]
  apply List.map_congr_left
  intro i _
  simp only [Nat.zero_add]

/-- Witness of C1: the scenario of `TestRateLimits` (two requests a second, three calls
within the second 100), and the same rule with a five-second window at the times 10, 12
and 14: admitted, admitted, limited. -/
theorem admits_first_L_then_limits_witness :
    (runSame plainParseRequestURI
        ({ list := [amfiRule, nseRule], cache := some reliableCache } : RateLimits Store)
        url1 [100, 100, 100] Store.empty).1
      = [.value false none, .value false none, .value true none] ∧
    (runSame plainParseRequestURI
        ({ list := [{ host := "amfiindia.com", bucket := 5 * Second, count := 2 }],
           cache := some reliableCache } : RateLimits Store)
        url1 [10, 12, 14] Store.empty).1
      = [.value false none, .value false none, .value true none] :=
  ⟨(admits_first_L_then_limits plainParseRequestURI
      { list := [amfiRule, nseRule], cache := some reliableCache } url1 amfiRule 1 100
      [100, 100, 100] Store.empty rfl (by decide) rfl (by decide) (by decide) (by decide)
      (by decide) (by decide) rfl).2.trans (by decide),
    (admits_first_L_then_limits plainParseRequestURI
      { list := [{ host := "amfiindia.com", bucket := 5 * Second, count := 2 }],
        cache := some reliableCache } url1
      { host := "amfiindia.com", bucket := 5 * Second, count := 2 } 5 2
      [10, 12, 14] Store.empty rfl (by decide) rfl (by decide) (by decide) (by decide)
      (by decide) (by decide) rfl).2.trans (by decide)⟩

/-- Counterexample to C1 as stated, at three rules with count 1 registered through
`addRateLimit`. With the window `longWindowSpec` the times 0 and 10 lie in one aligned
window and the second call is admitted: `4*bucket` wraps to four seconds, so the counter
written at time 0 has expired at time 10. With the window `1.5s` the seconds 0 and 1 lie
in one aligned window of 1.5 s and the second call is admitted: the divisor
`bucket / time.Second` is 1, so the two calls count under different keys. With the window
`5s` and a clock before the epoch the seconds -5 and -4 lie in one aligned window and the
second call is admitted: Go's `%` truncates towards zero, so the bucket timestamps are -5
and 0. -/
theorem long_window_not_limited :
    ((RateLimits.addRateLimit ParseDuration
        ({ list := [], cache := some reliableCache } : RateLimits Store)
        "amfiindia.com" longWindowSpec 1).2.list
      = [{ host := "amfiindia.com", bucket := 4611686019427387904, count := 1 }]) ∧
    ((0 : Int) * Second / 4611686019427387904 = 10 * Second / 4611686019427387904) ∧
    wrapInt64 (4 * 4611686019427387904) = 4 * Second ∧
    (runSame plainParseRequestURI
        (RateLimits.addRateLimit ParseDuration
          ({ list := [], cache := some reliableCache } : RateLimits Store)
          "amfiindia.com" longWindowSpec 1).2
        url1 [0, 10] Store.empty).1
      = [.value false none, .value false none] ∧
    ((RateLimits.addRateLimit ParseDuration
        ({ list := [], cache := some reliableCache } : RateLimits Store)
        "amfiindia.com" "1.5s" 1).2.list
      = [{ host := "amfiindia.com", bucket := 1500000000, count := 1 }]) ∧
    ((0 : Int) * Second / 1500000000 = 1 * Second / 1500000000) ∧
    (runSame plainParseRequestURI
        ({ list := [{ host := "amfiindia.com", bucket := 1500000000, count := 1 }],
           cache := some reliableCache } : RateLimits Store)
        url1 [0, 1] Store.empty).1
      = [.value false none, .value false none] ∧
    ((RateLimits.addRateLimit ParseDuration
        ({ list := [], cache := some reliableCache } : RateLimits Store)
        "amfiindia.com" "5s" 1).2.list
      = [{ host := "amfiindia.com", bucket := 5000000000, count := 1 }]) ∧
    ((-5 : Int) / 5 = -4 / 5) ∧
    (runSame plainParseRequestURI
        ({ list := [{ host := "amfiindia.com", bucket := 5000000000, count := 1 }],
           cache := some reliableCache } : RateLimits Store)
        url1 [-5, -4] Store.empty).1
      = [.value false none, .value false none] ∧
    ([Return.value false none, Return.value false none]
      ≠ [.value false none, .value true none]) := by
  refine ⟨by decide, by decide, by decide, by decide, by decide, by decide, ?_, by decide,
    by decide, ?_, by decide⟩
  rotate_left
  · have hm : matchLoop plainParseRequestURI
        [{ host := "amfiindia.com", bucket := 5000000000, count := 1 }] url1
        = .ok (some { host := "amfiindia.com", bucket := 5000000000, count := 1 }) := by
      decide
    have hk0 := getCacheKey_eq_some
      { host := "amfiindia.com", bucket := 5000000000, count := 1 } (-5) (-5) (by decide)
    have hk1 := getCacheKey_eq_some
      { host := "amfiindia.com", bucket := 5000000000, count := 1 } (-4) 0 (by decide)
    have hne : keyRateLimit ++ separator ++ "amfiindia.com" ++ separator ++ formatInt 0
        ≠ keyRateLimit ++ separator ++ "amfiindia.com" ++ separator ++ formatInt (-5) := by
      intro h
      rw [key_eq_iff] at h
      have hd := congrArg String.data h.2
      simp [formatInt, formatNat] at hd
    have e0 := step_absent plainParseRequestURI
      ({ list := [{ host := "amfiindia.com", bucket := 5000000000, count := 1 }],
         cache := some reliableCache } : RateLimits Store)
      url1 (-5) Store.empty _ _ rfl hm hk0 rfl (by decide)
    have e1 := fun s hl => step_absent plainParseRequestURI
      ({ list := [{ host := "amfiindia.com", bucket := 5000000000, count := 1 }],
         cache := some reliableCache } : RateLimits Store)
      url1 (-4) s _ _ rfl hm hk1 hl (by decide)
    simp only [runSame]
    rw [e0]
    dsimp only
    rw [e1 _ (by simp [Store.lookup, Function.update_noteq hne, Store.empty])]
  have hm : matchLoop plainParseRequestURI
      [{ host := "amfiindia.com", bucket := 1500000000, count := 1 }] url1
      = .ok (some { host := "amfiindia.com", bucket := 1500000000, count := 1 }) := by
    decide
  have hk0 := getCacheKey_eq_some
    { host := "amfiindia.com", bucket := 1500000000, count := 1 } 0 0 (by decide)
  have hk1 := getCacheKey_eq_some
    { host := "amfiindia.com", bucket := 1500000000, count := 1 } 1 1 (by decide)
  have hne : keyRateLimit ++ separator ++ "amfiindia.com" ++ separator ++ formatInt 1
      ≠ keyRateLimit ++ separator ++ "amfiindia.com" ++ separator ++ formatInt 0 := by
    intro h
    rw [key_eq_iff] at h
    have := formatInt_inj_of_nonneg 1 0 (by decide) (by decide) h.2
    omega
  have e0 := step_absent plainParseRequestURI
    ({ list := [{ host := "amfiindia.com", bucket := 1500000000, count := 1 }],
       cache := some reliableCache } : RateLimits Store)
    url1 0 Store.empty _ _ rfl hm hk0 rfl (by decide)
  have e1 := fun s hl => step_absent plainParseRequestURI
    ({ list := [{ host := "amfiindia.com", bucket := 1500000000, count := 1 }],
       cache := some reliableCache } : RateLimits Store)
    url1 1 s _ _ rfl hm hk1 hl (by decide)
  simp only [runSame]
  rw [e0]
  dsimp only
  rw [e1 _ (by simp [Store.lookup, Function.update_noteq hne, Store.empty])]

/-- C7 (amended). Every `isRateLimited` call that admits through the cache path has
issued exactly `Get`, `Incr` and then `Expire` on its bucket key, the expiry being the
`int64` product `4*bucket`, which is four times the rule's window exactly when four times
the window is an `int64` duration (from -2^63 ns up to, not including, 2^63 ns); on the
reliable cache the entry under the key then expires that long after the call. And from the empty reliable cache, after any sequence of `isRateLimited`
calls over a registry built by `addRateLimit` calls, every entry of the cache has an
expiry. -/
theorem admitted_sets_expiry {σ : Type} (parseRequestURI : String → Except Error URL)
    (parseDuration : String → Except Error Int)
    (r : RateLimits σ) (cache : Cache σ) (path : String) (now : Int) (s : σ)
    (rl : RateLimit) (key : String) (hc : r.cache = some cache)
    (hm : matchLoop parseRequestURI r.list path = .ok (some rl))
    (hk : rl.getCacheKey now = some key)
    (hpass : (r.isRateLimited parseRequestURI path now s).ret = .value false none) :
    (r.isRateLimited parseRequestURI path now s).ops
      = [.get key, .incr key, .expire key (wrapInt64 (4 * rl.bucket))] ∧
    (wrapInt64 (4 * rl.bucket) = 4 * rl.bucket ↔
      (-2 ^ 63 ≤ 4 * rl.bucket ∧ 4 * rl.bucket < 2 ^ 63)) ∧
    (∀ (reg : RateLimits Store) (st : Store), reg.cache = some reliableCache →
      matchLoop parseRequestURI reg.list path = .ok (some rl) →
      (reg.isRateLimited parseRequestURI path now st).ret = .value false none →
      ∃ e, (reg.isRateLimited parseRequestURI path now st).state key = some e ∧
        e.expireAt = some (now * Second + wrapInt64 (4 * rl.bucket))) ∧
    (∀ (calls : List AddCall) (seq : List (String × Int)),
      AllExpire (runCalls parseRequestURI
        (addAll parseDuration { list := [], cache := some reliableCache } calls)
        seq Store.empty)) := by
  refine ⟨admitted_ops parseRequestURI r cache path now s rl key hc hm hk hpass,
    wrapInt64_eq_iff _, ?_, ?_⟩
  · intro reg st hc2 hm2 hpass2
    exact admitted_entry parseRequestURI reg path now st rl key hc2 hm2 hk hpass2
  · intro calls seq
    obtain ⟨h1, h2⟩ := addAll_rules parseDuration calls
      ({ list := [], cache := some reliableCache } : RateLimits Store)
      (fun rl hrl => absurd hrl (List.not_mem_nil rl))
    exact runCalls_all_expire parseRequestURI _ h1 (fun rl hrl => (h2 rl hrl).2) seq
      Store.empty (fun k e hk => by cases hk)

/-- Witness of C7: the first call of the `TestRateLimits` scenario at time 0. -/
theorem admitted_sets_expiry_witness :
    (({ list := [amfiRule], cache := some reliableCache } : RateLimits Store).isRateLimited
        plainParseRequestURI url1 0 Store.empty).ops
      = [.get (bucketKey amfiRule 0), .incr (bucketKey amfiRule 0),
          .expire (bucketKey amfiRule 0) (wrapInt64 (4 * amfiRule.bucket))] :=
  (admitted_sets_expiry plainParseRequestURI ParseDuration
    { list := [amfiRule], cache := some reliableCache } reliableCache url1 0 Store.empty
    amfiRule (bucketKey amfiRule 0) rfl (by decide)
    (getCacheKey_eq_some amfiRule 0 0 (by decide)) (by decide)).1

/-- Counterexample to C7 as stated, at two rules registered through `addRateLimit`.
With the window `wideWindowSpec` (2^61 ns) the first call is admitted and has issued
`Expire` with -2^63 ns, which is not four times the window (2^63 ns). With the window
`negWindowSpec` (-2^62 ns) the first call is admitted and has issued `Expire` with 0 ns,
which is not four times the window (-2^64 ns). -/
theorem wide_window_expiry_wraps :
    ((RateLimits.addRateLimit ParseDuration
        ({ list := [], cache := some reliableCache } : RateLimits Store)
        "amfiindia.com" wideWindowSpec 1).2.list
      = [{ host := "amfiindia.com", bucket := 2305843009213693952, count := 1 }]) ∧
    ((RateLimits.addRateLimit ParseDuration
        ({ list := [], cache := some reliableCache } : RateLimits Store)
        "amfiindia.com" wideWindowSpec 1).2.isRateLimited
        plainParseRequestURI url1 0 Store.empty).ret = .value false none ∧
    ((RateLimits.addRateLimit ParseDuration
        ({ list := [], cache := some reliableCache } : RateLimits Store)
        "amfiindia.com" wideWindowSpec 1).2.isRateLimited
        plainParseRequestURI url1 0 Store.empty).ops
      = [.get "rate.amfiindia.com.0", .incr "rate.amfiindia.com.0",
          .expire "rate.amfiindia.com.0" (-9223372036854775808)] ∧
    (-9223372036854775808 : Int) ≠ 4 * 2305843009213693952 ∧
    ((RateLimits.addRateLimit ParseDuration
        ({ list := [], cache := some reliableCache } : RateLimits Store)
        "amfiindia.com" negWindowSpec 1).2.list
      = [{ host := "amfiindia.com", bucket := -4611686018427387904, count := 1 }]) ∧
    ((RateLimits.addRateLimit ParseDuration
        ({ list := [], cache := some reliableCache } : RateLimits Store)
        "amfiindia.com" negWindowSpec 1).2.isRateLimited
        plainParseRequestURI url1 0 Store.empty).ret = .value false none ∧
    ((RateLimits.addRateLimit ParseDuration
        ({ list := [], cache := some reliableCache } : RateLimits Store)
        "amfiindia.com" negWindowSpec 1).2.isRateLimited
        plainParseRequestURI url1 0 Store.empty).ops
      = [.get "rate.amfiindia.com.0", .incr "rate.amfiindia.com.0",
          .expire "rate.amfiindia.com.0" 0] ∧
    (0 : Int) ≠ 4 * (-4611686018427387904) := by
  refine ⟨by decide, by decide, by decide, by decide, by decide, by decide, by decide,
    by decide⟩

/-! ## Windows and counts that registration lets through -/

/-- C8, the code at the failing input: `addRateLimit` returns nil for the window spec
`0s` and for the count -1, and the registry then holds a rule with window 0 and a rule
with count -1. -/
theorem addRateLimit_keeps_zero_window_and_negative_count :
    (RateLimits.addRateLimit ParseDuration
        ({ list := [], cache := none } : RateLimits Store) "amfiindia.com" "0s" 1).1 = none ∧
    (RateLimits.addRateLimit ParseDuration
        ({ list := [], cache := none } : RateLimits Store) "nseindia.com" "1s" (-1)).1 = none ∧
    (addAll ParseDuration ({ list := [], cache := none } : RateLimits Store)
        [{ host := "amfiindia.com", bucket := "0s", count := 1 },
         { host := "nseindia.com", bucket := "1s", count := -1 }]).list
      = [{ host := "amfiindia.com", bucket := 0, count := 1 },
         { host := "nseindia.com", bucket := 1000000000, count := -1 }] := by
  refine ⟨by decide, by decide, by decide⟩

/-- C10, the code at the failing input: `addRateLimit` returns nil for the window spec
`500ms`; the divisor `bucket / time.Second` of the stored rule is 0 and `isRateLimited`
on a destination the rule matches panics with a division by zero. -/
theorem subsecond_window_divides_by_zero :
    (RateLimits.addRateLimit ParseDuration
        ({ list := [], cache := some reliableCache } : RateLimits Store)
        "amfiindia.com" "500ms" 2).1 = none ∧
    (RateLimits.addRateLimit ParseDuration
        ({ list := [], cache := some reliableCache } : RateLimits Store)
        "amfiindia.com" "500ms" 2).2.list
      = [{ host := "amfiindia.com", bucket := 500000000, count := 2 }] ∧
    (500000000 : Int).tdiv Second = 0 ∧
    ((RateLimits.addRateLimit ParseDuration
        ({ list := [], cache := some reliableCache } : RateLimits Store)
        "amfiindia.com" "500ms" 2).2.isRateLimited
        plainParseRequestURI url1 1636000000 Store.empty).ret
      = .panic "runtime error: integer divide by zero" := by
  refine ⟨by decide, by decide, by decide, by decide⟩

/-- C3, the code at the failing input: with no cache configured and a matching rule
registered with the window spec `500ms`, `isRateLimited` panics where the claim has
`(false, nil)`: the bucket key is computed before the cache handle is tested. -/
theorem nil_cache_subsecond_window_panics :
    (RateLimits.addRateLimit ParseDuration
        ({ list := [], cache := none } : RateLimits Unit) "amfiindia.com" "500ms" 2).1 = none ∧
    ((RateLimits.addRateLimit ParseDuration
        ({ list := [], cache := none } : RateLimits Unit)
        "amfiindia.com" "500ms" 2).2.isRateLimited
        plainParseRequestURI url1 1636000000 ()).ret
      = .panic "runtime error: integer divide by zero" ∧
    ((RateLimits.addRateLimit ParseDuration
        ({ list := [], cache := none } : RateLimits Unit)
        "amfiindia.com" "500ms" 2).2.isRateLimited
        plainParseRequestURI url1 1636000000 ()).ret
      ≠ .value false none := by
  refine ⟨by decide, by decide, by decide⟩

end Getter
